import Mathlib

set_option maxRecDepth 8000

/-!
Verification of the query_builder repository (Go): a shallow embedding of
builder.go, its data model and its Build rendering pipeline, followed by
theorems settling the specification claims.

The rendering pipeline is embedded at the level of output fragments: every
write to the strings.Builder is a literal fragment, and every call to
dialect.Placeholder(k) is a placeholder fragment carrying its index k.
Flattening the fragment list through the dialect yields exactly the string
the Go code builds, and the placeholder indices become observable, which is
what the placeholder/argument correspondence claims are about.
-/

namespace QueryBuilder

/-- Argument values bound into the query. Go uses interface values; the
repository only ever binds integers and strings, so we narrow to those. -/
inductive Val where
  | vInt : Int → Val
  | vStr : String → Val
deriving DecidableEq, Repr

/-- Dialect: SQL flavor-specific behavior, builder.go lines 14-21. -/
structure Dialect where
  placeholder : Nat → String
  quoteIdentifier : String → String

/-- PostgresDialect, builder.go lines 23-34: placeholders are dollar-number. -/
def PostgresDialect : Dialect where
  placeholder := fun i => "$" ++ toString i
  quoteIdentifier := fun n => "\"" ++ n ++ "\""

/-- MySQLDialect, builder.go lines 36-47: placeholder is a fixed question mark. -/
def MySQLDialect : Dialect where
  placeholder := fun _ => "?"
  quoteIdentifier := fun n => "`" ++ n ++ "`"

/-- OracleDialect, builder.go lines 49-60: placeholders are colon-number. -/
def OracleDialect : Dialect where
  placeholder := fun i => ":" ++ toString i
  quoteIdentifier := fun n => "\"" ++ n ++ "\""

/-- ColumnRef, builder.go lines 82-86. -/
structure ColumnRef where
  TableAlias : String
  ColumnName : String
deriving DecidableEq, Repr

/-- Embedding of the Go strings.Split(ref, dot) call used by Col: splits a
character list at every dot, keeping empty pieces, as the Go function does
for a one-character separator. -/
def splitOnDot : List Char → List (List Char)
  | [] => [[]]
  | c :: rest =>
    if c = '.' then [] :: splitOnDot rest
    else
      match splitOnDot rest with
      | [] => [[c]]
      | p :: ps => (c :: p) :: ps

/-- Col, builder.go lines 88-97: parse a reference string into a ColumnRef.
The Go code splits on dots and only when the split has exactly two parts
does it produce an alias and a name; otherwise the whole string is the
column name with an empty alias. -/
def Col (ref : String) : ColumnRef :=
  match splitOnDot ref.data with
  | [a, b] => ⟨String.mk a, String.mk b⟩
  | _ => ⟨"", ref⟩

/-- JoinCondition, builder.go lines 107-112. -/
structure JoinCondition where
  Left : ColumnRef
  Op : String
  Right : ColumnRef
deriving DecidableEq, Repr

/-- Join, builder.go lines 99-105. The Go field named Type is renamed Typ
because Type is reserved in Lean. -/
structure Join where
  Typ : String
  Table : String
  Alias : String
  Condition : JoinCondition
deriving DecidableEq, Repr

/-- Filter, builder.go lines 151-156. -/
structure Filter where
  Column : ColumnRef
  Op : String
  Value : Val
deriving DecidableEq, Repr

/-- FilterGroup, builder.go lines 114-119: a recursive tree of filters and
nested groups combined under a logical operator. -/
inductive FilterGroup where
  | mk (Operator : String) (Filters : List Filter) (Groups : List FilterGroup)

/-- Accessor for the logical operator of a group. -/
def FilterGroup.Operator : FilterGroup → String
  | .mk op _ _ => op

/-- Accessor for the leaf filters of a group. -/
def FilterGroup.Filters : FilterGroup → List Filter
  | .mk _ fs _ => fs

/-- Accessor for the nested groups of a group. -/
def FilterGroup.Groups : FilterGroup → List FilterGroup
  | .mk _ _ gs => gs

/-- Items accepted by And / Or, builder.go lines 124-133: either a Filter
value or a possibly-nil FilterGroup pointer. -/
inductive GroupItem where
  | filt : Filter → GroupItem
  | grp : Option FilterGroup → GroupItem

/-- createGroup, builder.go lines 135-149: partition items into leaf filters
and non-nil nested groups. -/
def createGroup (op : String) (items : List GroupItem) : FilterGroup :=
  let step := fun (acc : List Filter × List FilterGroup) (item : GroupItem) =>
    match item with
    | .filt f => (acc.1 ++ [f], acc.2)
    | .grp (some g) => (acc.1, acc.2 ++ [g])
    | .grp none => acc
  let r := items.foldl step ([], [])
  .mk op r.1 r.2

/-- And, builder.go lines 121-126. -/
def And (items : List GroupItem) : FilterGroup := createGroup "AND" items

/-- Or, builder.go lines 128-133. -/
def Or (items : List GroupItem) : FilterGroup := createGroup "OR" items

/-- F, builder.go lines 158-163: construct a single Filter. -/
def F (ref : String) (op : String) (val : Val) : Filter :=
  { Column := Col ref, Op := op, Value := val }

/-- Sort, builder.go lines 165-169 (renamed SortCol: Sort is reserved). -/
structure SortCol where
  Column : ColumnRef
  Dir : String
deriving DecidableEq, Repr

/-- Pagination, builder.go lines 171-175. The Go field named Type is
renamed Typ; the LastSeen map becomes an association list. -/
structure Pagination where
  Typ : String
  LastSeen : List (String × Val)
deriving DecidableEq, Repr

/-- Schema: the Go map from table name to set of column names, as an
association list from table name to column list. -/
abbrev Schema := List (String × List String)

/-- Alias map: the Go map from alias to table name built by registerAliases. -/
abbrev AliasMap := List (String × String)

/-- True when the schema has the column in the table, mirroring the Go
double map lookup where a missing table or column yields false. -/
def schemaHasCol (s : Schema) (table col : String) : Bool :=
  match s.lookup table with
  | some cols => cols.contains col
  | none => false

/-- Embedding of Go strings.ToUpper: uppercase every character. Defined
through the character list so that it reduces definitionally (the library
String.toUpper computes the same map). -/
def strToUpper (s : String) : String := String.mk (s.data.map Char.toUpper)

/-- allowedOperators, builder.go lines 178-180. -/
def allowedOperators : List String :=
  ["=", "!=", ">", "<", ">=", "<=", "IN", "LIKE", "IS", "IS NOT"]

/-- allowedJoinTypes, builder.go lines 182-184. -/
def allowedJoinTypes : List String :=
  ["INNER", "LEFT", "RIGHT", "FULL", "CROSS"]

/-- allowedSortDir, builder.go lines 186-188. -/
def allowedSortDir : List String := ["ASC", "DESC"]

/-- maxFilterDepth, builder.go line 10. -/
def maxFilterDepth : Nat := 10

/-- Query, builder.go lines 62-80: the builder state. The Go field named
where is renamed whereG (reserved word); errors holds accumulated error
messages; nil maps and pointers become Option values. -/
structure Query where
  dialect : Dialect
  allowedSchema : Option Schema
  baseTable : String
  baseAlias : String
  projections : List ColumnRef
  joins : List Join
  whereG : Option FilterGroup
  sorts : List SortCol
  limit : Int
  offset : Int
  pagination : Pagination
  isCount : Bool
  errors : List String

/-- New, builder.go lines 190-195: fresh query with Go zero values. -/
def New (dialect : Dialect) : Query where
  dialect := dialect
  allowedSchema := none
  baseTable := ""
  baseAlias := ""
  projections := []
  joins := []
  whereG := none
  sorts := []
  limit := 0
  offset := 0
  pagination := { Typ := "", LastSeen := [] }
  isCount := false
  errors := []

/-- WithSchema, builder.go lines 197-204. -/
def Query.WithSchema (q : Query) (schema : Schema) : Query :=
  { q with allowedSchema := some schema }

/-- From, builder.go lines 206-212. -/
def Query.From (q : Query) (table als : String) : Query :=
  { q with baseTable := table, baseAlias := als }

/-- Select, builder.go lines 214-222: append the parsed projections. -/
def Query.Select (q : Query) (columns : List String) : Query :=
  { q with projections := q.projections ++ columns.map Col }

/-- Count, builder.go lines 224-230. -/
def Query.Count (q : Query) : Query :=
  { q with isCount := true }

/-- Join method, builder.go lines 232-248. -/
def Query.AddJoin (q : Query) (joinType table als left right op : String) : Query :=
  { q with joins := q.joins ++
      [{ Typ := joinType, Table := table, Alias := als,
         Condition := { Left := Col left, Op := op, Right := Col right } }] }

/-- Where, builder.go lines 250-256. -/
def Query.SetWhere (q : Query) (group : FilterGroup) : Query :=
  { q with whereG := some group }

/-- Eq, builder.go lines 258-269: append an equality filter to the root
group, creating an AND group when none exists. -/
def Query.AddEq (q : Query) (ref : String) (val : Val) : Query :=
  let filter := F ref "=" val
  match q.whereG with
  | none => { q with whereG := some (And [.filt filter]) }
  | some (.mk op fs gs) => { q with whereG := some (.mk op (fs ++ [filter]) gs) }

/-- In, builder.go lines 271-282: append an IN filter likewise. -/
def Query.AddIn (q : Query) (ref : String) (val : Val) : Query :=
  let filter := F ref "IN" val
  match q.whereG with
  | none => { q with whereG := some (And [.filt filter]) }
  | some (.mk op fs gs) => { q with whereG := some (.mk op (fs ++ [filter]) gs) }

/-- OrderBy, builder.go lines 284-290: the direction is uppercased here. -/
def Query.OrderBy (q : Query) (column dir : String) : Query :=
  { q with sorts := q.sorts ++ [{ Column := Col column, Dir := strToUpper dir }] }

/-- Limit, builder.go lines 292-296. -/
def Query.Limit (q : Query) (limit : Int) : Query :=
  { q with limit := limit }

/-- Offset, builder.go lines 298-305: also switches pagination mode to
offset, leaving LastSeen as it was. -/
def Query.Offset (q : Query) (offset : Int) : Query :=
  { q with offset := offset, pagination := { q.pagination with Typ := "offset" } }

/-- KeysetPagination, builder.go lines 307-316: replaces the whole
pagination configuration. -/
def Query.KeysetPagination (q : Query) (lastSeen : List (String × Val)) : Query :=
  { q with pagination := { Typ := "keyset", LastSeen := lastSeen } }

/-- Output fragment: a literal piece of SQL text, or a placeholder produced
by a dialect.Placeholder(k) call carrying its index k. -/
inductive Frag where
  | lit : String → Frag
  | ph : Nat → Frag
deriving DecidableEq, Repr

/-- Render one fragment through the dialect. -/
def Frag.render (d : Dialect) : Frag → String
  | .lit s => s
  | .ph n => d.placeholder n

/-- Flatten a fragment list to the SQL string the Go strings.Builder holds. -/
def flatten (d : Dialect) (fs : List Frag) : String :=
  String.join (fs.map (Frag.render d))

/-- Placeholder indices of a fragment list, in left-to-right textual order. -/
def phIdx : List Frag → List Nat
  | [] => []
  | .lit _ :: fs => phIdx fs
  | .ph n :: fs => n :: phIdx fs

/-- Fragment-level strings.Join: concatenate the parts with a literal
separator between consecutive parts. -/
def joinParts (sep : String) : List (List Frag) → List Frag
  | [] => []
  | [p] => p
  | p :: ps => p ++ [Frag.lit sep] ++ joinParts sep ps

/-- validateBase, builder.go lines 378-389. -/
def validateBase (q : Query) : Except String Unit :=
  if q.baseTable = "" then .error "base table required"
  else
    match q.allowedSchema with
    | none => .ok ()
    | some schema =>
      if (schema.lookup q.baseTable).isSome then .ok ()
      else .error ("invalid base table: " ++ q.baseTable)

/-- getBaseAlias, builder.go lines 391-397. -/
def getBaseAlias (q : Query) : String :=
  if q.baseAlias ≠ "" then q.baseAlias else q.baseTable

/-- Loop body of registerAliases, builder.go lines 404-412: fold over the
joins extending the alias map, failing on an empty or duplicate alias. -/
def registerAliasesAux (aliasMap : AliasMap) : List Join → Except String AliasMap
  | [] => .ok aliasMap
  | j :: js =>
    if j.Alias = "" then .error "join alias required"
    else if (aliasMap.lookup j.Alias).isSome then .error ("duplicate alias: " ++ j.Alias)
    else registerAliasesAux (aliasMap ++ [(j.Alias, j.Table)]) js

/-- registerAliases, builder.go lines 399-414: seed with the base alias. -/
def registerAliases (q : Query) : Except String AliasMap :=
  registerAliasesAux [(getBaseAlias q, q.baseTable)] q.joins

/-- validateCol, builder.go lines 543-553: a no-op without a schema;
otherwise the alias must resolve and the column must be in the table. -/
def validateCol (ref : ColumnRef) (aliasMap : AliasMap) (schema : Option Schema) :
    Except String Unit :=
  match schema with
  | none => .ok ()
  | some s =>
    match aliasMap.lookup ref.TableAlias with
    | some tableName =>
      if schemaHasCol s tableName ref.ColumnName then .ok ()
      else .error (ref.TableAlias ++ "." ++ ref.ColumnName)
    | none => .error (ref.TableAlias ++ "." ++ ref.ColumnName)

/-- Loop body of buildProjections, builder.go lines 495-501: validate each
projection and render it as alias.column. -/
def collectProjCols (aliasMap : AliasMap) (schema : Option Schema) :
    List ColumnRef → Except String (List String)
  | [] => .ok []
  | p :: ps =>
    match validateCol p aliasMap schema with
    | .error e => .error ("invalid column: " ++ e)
    | .ok _ =>
      match collectProjCols aliasMap schema ps with
      | .error e => .error e
      | .ok rest => .ok ((p.TableAlias ++ "." ++ p.ColumnName) :: rest)

/-- buildProjections, builder.go lines 489-505: SELECT list or base star. -/
def buildProjections (q : Query) (aliasMap : AliasMap) (schema : Option Schema)
    (baseAlias : String) : Except String (List Frag) :=
  if q.projections = [] then .ok [Frag.lit ("SELECT " ++ baseAlias ++ ".*")]
  else
    match collectProjCols aliasMap schema q.projections with
    | .error e => .error e
    | .ok cols => .ok [Frag.lit ("SELECT " ++ String.intercalate ", " cols)]

/-- validateJoin, builder.go lines 523-541. -/
def validateJoin (j : Join) (aliasMap : AliasMap) (schema : Option Schema) :
    Except String Unit :=
  if ¬ allowedJoinTypes.contains (strToUpper j.Typ) then
    .error ("invalid join type: " ++ j.Typ)
  else
    match schema with
    | none => .ok ()
    | some s =>
      if (s.lookup j.Table).isNone then .error ("invalid join table: " ++ j.Table)
      else
        match validateCol j.Condition.Left aliasMap schema with
        | .error e => .error ("invalid join left column: " ++ e)
        | .ok _ =>
          match validateCol j.Condition.Right aliasMap schema with
          | .error e => .error ("invalid join right column: " ++ e)
          | .ok _ => .ok ()

/-- buildJoins, builder.go lines 507-521: validate and render each join. -/
def buildJoins (aliasMap : AliasMap) (schema : Option Schema) :
    List Join → Except String (List Frag)
  | [] => .ok []
  | j :: js =>
    match validateJoin j aliasMap schema with
    | .error e => .error e
    | .ok _ =>
      match buildJoins aliasMap schema js with
      | .error e => .error e
      | .ok rest =>
        .ok (Frag.lit (" " ++ strToUpper j.Typ ++ " JOIN " ++ j.Table ++ " " ++ j.Alias
              ++ " ON " ++ j.Condition.Left.TableAlias ++ "." ++ j.Condition.Left.ColumnName
              ++ " " ++ j.Condition.Op
              ++ " " ++ j.Condition.Right.TableAlias ++ "." ++ j.Condition.Right.ColumnName)
            :: rest)

/-- collectFilters, builder.go lines 586-606: validate each filter, append
its value to the argument list, and emit the comparison with a placeholder
whose index is the argument-list length right after the append. -/
def collectFilters (aliasMap : AliasMap) (schema : Option Schema) (args : List Val) :
    List Filter → Except String (List (List Frag) × List Val)
  | [] => .ok ([], args)
  | f :: fs =>
    match validateCol f.Column aliasMap schema with
    | .error e => .error ("invalid column: " ++ e)
    | .ok _ =>
      if ¬ allowedOperators.contains (strToUpper f.Op) then .error ("invalid operator: " ++ f.Op)
      else
        let args1 := args ++ [f.Value]
        let part : List Frag :=
          [Frag.lit (f.Column.TableAlias ++ "." ++ f.Column.ColumnName ++ " " ++ f.Op ++ " "),
           Frag.ph args1.length]
        match collectFilters aliasMap schema args1 fs with
        | .error e => .error e
        | .ok (parts, args2) => .ok (part :: parts, args2)

mutual

/-- buildFilterGroup, builder.go lines 555-584: depth check, operator
check, leaf filters, then nested groups each wrapped in parentheses, all
joined by the group operator; an empty result renders to nothing. -/
def buildFilterGroup (g : FilterGroup) (args : List Val) (aliasMap : AliasMap)
    (depth : Nat) (schema : Option Schema) : Except String (List Frag × List Val) :=
  if depth > maxFilterDepth then .error "filter depth exceeded"
  else
    match g with
    | .mk oper fs gs =>
      let op := strToUpper oper
      if op ≠ "AND" ∧ op ≠ "OR" then .error "invalid logical operator"
      else
        match collectFilters aliasMap schema args fs with
        | .error e => .error e
        | .ok (parts, args1) =>
          match buildGroupList gs args1 aliasMap depth schema with
          | .error e => .error e
          | .ok (subParts, args2) =>
            let allParts := parts ++ subParts
            if allParts = [] then .ok ([], args2)
            else .ok (joinParts (" " ++ op ++ " ") allParts, args2)

/-- Loop of builder.go lines 570-578 over the nested groups: each nested
group is built at depth plus one; an empty rendering is dropped, a
non-empty one is parenthesized. -/
def buildGroupList (gs : List FilterGroup) (args : List Val) (aliasMap : AliasMap)
    (depth : Nat) (schema : Option Schema) : Except String (List (List Frag) × List Val) :=
  match gs with
  | [] => .ok ([], args)
  | g :: rest =>
    match buildFilterGroup g args aliasMap (depth + 1) schema with
    | .error e => .error e
    | .ok (sub, args1) =>
      match buildGroupList rest args1 aliasMap depth schema with
      | .error e => .error e
      | .ok (subs, args2) =>
        if sub = [] then .ok (subs, args2)
        else .ok (([Frag.lit "("] ++ sub ++ [Frag.lit ")"]) :: subs, args2)

end

/-- buildKeysetPagination, builder.go lines 608-628: only the first sort
column is consulted; its key is looked up in LastSeen; the comparison is
greater-than unless the first sort direction uppercases to DESC. The
hasWhere parameter mirrors the Go signature and is unused there too. -/
def buildKeysetPagination (q : Query) (args : List Val) (hasWhere : Bool) :
    Except String (List Frag × List Val) :=
  match q.sorts with
  | [] => .ok ([], args)
  | s0 :: _ =>
    if q.pagination.Typ ≠ "keyset" then .ok ([], args)
    else
      let col := s0.Column
      let key := col.TableAlias ++ "." ++ col.ColumnName
      match q.pagination.LastSeen.lookup key with
      | none => .ok ([], args)
      | some val =>
        let op := if strToUpper s0.Dir = "DESC" then "<" else ">"
        let args1 := args ++ [val]
        .ok ([Frag.lit (col.TableAlias ++ "." ++ col.ColumnName ++ " " ++ op ++ " "),
              Frag.ph args1.length], args1)

/-- First block of buildFilters, builder.go lines 418-429: render the root
filter group behind WHERE when non-empty, reporting whether a WHERE clause
was emitted. -/
def buildFiltersWhere (q : Query) (args : List Val) (aliasMap : AliasMap)
    (schema : Option Schema) : Except String (List Frag × List Val × Bool) :=
  match q.whereG with
  | none => .ok ([], args, false)
  | some w =>
    match buildFilterGroup w args aliasMap 0 schema with
    | .error e => .error e
    | .ok (whereClause, args1) =>
      if whereClause = [] then .ok ([], args1, false)
      else .ok (Frag.lit " WHERE " :: whereClause, args1, true)

/-- Second block of buildFilters, builder.go lines 431-445: when keyset
pagination is active and a sort exists, append the keyset predicate behind
WHERE or AND. -/
def buildFiltersKeyset (q : Query) (frags : List Frag) (args1 : List Val)
    (hasWhere : Bool) : Except String (List Frag × List Val) :=
  if q.pagination.Typ = "keyset" ∧ q.sorts ≠ [] then
    match buildKeysetPagination q args1 hasWhere with
    | .error e => .error e
    | .ok (keysetClause, args2) =>
      if keysetClause = [] then .ok (frags, args2)
      else if hasWhere then .ok (frags ++ [Frag.lit " AND "] ++ keysetClause, args2)
      else .ok (frags ++ [Frag.lit " WHERE "] ++ keysetClause, args2)
  else .ok (frags, args1)

/-- buildFilters, builder.go lines 416-447: the two blocks in sequence. -/
def buildFilters (q : Query) (args : List Val) (aliasMap : AliasMap)
    (schema : Option Schema) : Except String (List Frag × List Val) :=
  match buildFiltersWhere q args aliasMap schema with
  | .error e => .error e
  | .ok (frags, args1, hasWhere) => buildFiltersKeyset q frags args1 hasWhere

/-- Loop body of buildOrderBy, builder.go lines 456-465: validate each sort
column and direction and render alias.column DIR. -/
def collectSortParts (aliasMap : AliasMap) (schema : Option Schema) :
    List SortCol → Except String (List String)
  | [] => .ok []
  | s :: ss =>
    match validateCol s.Column aliasMap schema with
    | .error e => .error ("invalid sort column: " ++ e)
    | .ok _ =>
      let dir := strToUpper s.Dir
      if ¬ allowedSortDir.contains dir then .error ("invalid sort direction: " ++ s.Dir)
      else
        match collectSortParts aliasMap schema ss with
        | .error e => .error e
        | .ok rest =>
          .ok ((s.Column.TableAlias ++ "." ++ s.Column.ColumnName ++ " " ++ dir) :: rest)

/-- buildOrderBy, builder.go lines 449-468. -/
def buildOrderBy (q : Query) (aliasMap : AliasMap) (schema : Option Schema) :
    Except String (List Frag) :=
  if q.sorts = [] then .ok []
  else
    match collectSortParts aliasMap schema q.sorts with
    | .error e => .error e
    | .ok parts => .ok [Frag.lit (" ORDER BY " ++ String.intercalate ", " parts)]

/-- buildLimitOffset, builder.go lines 470-487: nothing when the limit is
not positive; FETCH NEXT when pagination is keyset or the dialect
placeholder for one is the Oracle token; else LIMIT and, for a positive
offset, OFFSET. Each placeholder index is the argument count after the
corresponding append. -/
def buildLimitOffset (q : Query) (args : List Val) : List Frag × List Val :=
  if q.limit ≤ 0 then ([], args)
  else if q.pagination.Typ = "keyset" ∨ q.dialect.placeholder 1 = ":1" then
    let args1 := args ++ [Val.vInt q.limit]
    ([Frag.lit " FETCH NEXT ", Frag.ph args1.length, Frag.lit " ROWS ONLY"], args1)
  else
    let args1 := args ++ [Val.vInt q.limit]
    if q.offset > 0 then
      let args2 := args1 ++ [Val.vInt q.offset]
      ([Frag.lit " LIMIT ", Frag.ph args1.length, Frag.lit " OFFSET ", Frag.ph args2.length],
       args2)
    else ([Frag.lit " LIMIT ", Frag.ph args1.length], args1)

/-- Build, builder.go lines 318-376, at the fragment level: the phase
sequence with its early error returns. Count mode returns right after the
WHERE phase. -/
def BuildE (q : Query) : Except String (List Frag × List Val) :=
  match q.errors with
  | e :: _ => .error e
  | [] =>
    match validateBase q with
    | .error e => .error e
    | .ok _ =>
      match registerAliases q with
      | .error e => .error e
      | .ok aliasMap =>
        let selRes : Except String (List Frag) :=
          if q.isCount then .ok [Frag.lit "SELECT COUNT(*)"]
          else buildProjections q aliasMap q.allowedSchema (getBaseAlias q)
        match selRes with
        | .error e => .error e
        | .ok selFrags =>
          let fromFrag := Frag.lit (" FROM " ++ q.baseTable ++ " " ++ getBaseAlias q)
          match buildJoins aliasMap q.allowedSchema q.joins with
          | .error e => .error e
          | .ok joinFrags =>
            match buildFilters q [] aliasMap q.allowedSchema with
            | .error e => .error e
            | .ok (whereFrags, args1) =>
              if q.isCount then
                .ok (selFrags ++ [fromFrag] ++ joinFrags ++ whereFrags, args1)
              else
                match buildOrderBy q aliasMap q.allowedSchema with
                | .error e => .error e
                | .ok orderFrags =>
                  let lo := buildLimitOffset q args1
                  .ok (selFrags ++ [fromFrag] ++ joinFrags ++ whereFrags
                        ++ orderFrags ++ lo.1, lo.2)

/-- Build, builder.go lines 318-376: the Go function returns the triple of
SQL text, argument list and error; every error return site in the Go code
returns the empty string and a nil argument list. -/
def Build (q : Query) : String × List Val × Option String :=
  match BuildE q with
  | .error e => ("", [], some e)
  | .ok (frags, args) => (flatten q.dialect frags, args, none)

/-! Helper lemmas: placeholder indices of fragment lists. -/

theorem phIdx_append (a b : List Frag) : phIdx (a ++ b) = phIdx a ++ phIdx b := by
  induction a with
  | nil => rfl
  | cons f fs ih => cases f <;> simp [phIdx, ih]

theorem phIdx_joinParts (sep : String) (ps : List (List Frag)) :
    phIdx (joinParts sep ps) = (ps.map phIdx).flatten := by
  induction ps with
  | nil => rfl
  | cons p ps ih =>
    cases ps with
    | nil => simp [joinParts, phIdx]
    | cons b bs =>
      show phIdx (p ++ [Frag.lit sep] ++ joinParts sep (b :: bs)) = _
      rw [phIdx_append, phIdx_append, ih]
      simp [phIdx]

theorem range'_succ_left (s k : Nat) :
    List.range' s (k + 1) = s :: List.range' (s + 1) k := rfl

theorem range'_eq_nil_iff {s n : Nat} : List.range' s n = [] ↔ n = 0 := by
  constructor
  · intro h
    have := congrArg List.length h
    simpa using this
  · intro h; subst h; rfl

theorem range'_add_right (s m n : Nat) :
    List.range' s m ++ List.range' (s + m) n = List.range' s (m + n) := by
  induction m generalizing s with
  | zero => simp
  | succ m ih =>
    rw [Nat.add_right_comm m 1 n, range'_succ_left s (m + n), range'_succ_left s m,
      List.cons_append]
    have hsm : s + (m + 1) = s + 1 + m := by omega
    rw [hsm, ih (s + 1)]

/-- Spec of collectFilters: on success the argument list is extended by the
filter values in order, and the placeholder indices of the emitted parts
continue the argument count one-for-one. -/
theorem collectFilters_phIdx (am : AliasMap) (schema : Option Schema) :
    ∀ (fs : List Filter) (args : List Val) (parts : List (List Frag)) (args' : List Val),
      collectFilters am schema args fs = .ok (parts, args') →
      ∃ vs, args' = args ++ vs ∧
        (parts.map phIdx).flatten = List.range' (args.length + 1) vs.length := by
  intro fs
  induction fs with
  | nil =>
    intro args parts args' h
    simp only [collectFilters] at h
    cases h
    exact ⟨[], by simp, by simp⟩
  | cons f fs ih =>
    intro args parts args' h
    simp only [collectFilters] at h
    cases hv : validateCol f.Column am schema with
    | error e => rw [hv] at h; cases h
    | ok u =>
      rw [hv] at h
      by_cases hop : ¬ (allowedOperators.contains (strToUpper f.Op) = true)
      · rw [if_pos hop] at h; cases h
      · rw [if_neg hop] at h
        cases hr : collectFilters am schema (args ++ [f.Value]) fs with
        | error e => rw [hr] at h; cases h
        | ok pr =>
          obtain ⟨parts2, args2⟩ := pr
          rw [hr] at h
          cases h
          obtain ⟨vs, hvs, hjoin⟩ := ih (args ++ [f.Value]) parts2 _ hr
          refine ⟨f.Value :: vs, ?_, ?_⟩
          · simpa using hvs
          · have h2 := hjoin
            simp only [List.length_append, List.length_cons, List.length_nil,
              Nat.zero_add] at h2
            simp only [List.map_cons, List.flatten_cons, phIdx, h2, List.length_append,
              List.length_cons, List.length_nil, Nat.zero_add]
            rw [range'_succ_left]
            simp

/-- Combined strong induction on tree size establishing the placeholder
index spec for buildFilterGroup and its nested-group loop together. -/
theorem groupPhIdx_rec (n : Nat) :
    (∀ (oper : String) (fs : List Filter) (gs : List FilterGroup) (args : List Val)
        (am : AliasMap) (depth : Nat) (schema : Option Schema) (out : List Frag)
        (args' : List Val), sizeOf (FilterGroup.mk oper fs gs) ≤ n →
        buildFilterGroup (.mk oper fs gs) args am depth schema = .ok (out, args') →
        ∃ vs, args' = args ++ vs ∧ phIdx out = List.range' (args.length + 1) vs.length) ∧
    (∀ (gs : List FilterGroup) (args : List Val) (am : AliasMap) (depth : Nat)
        (schema : Option Schema) (subs : List (List Frag)) (args' : List Val),
        sizeOf gs ≤ n →
        buildGroupList gs args am depth schema = .ok (subs, args') →
        ∃ vs, args' = args ++ vs ∧
          (subs.map phIdx).flatten = List.range' (args.length + 1) vs.length) := by
  induction n with
  | zero =>
    constructor
    · intro oper fs gs args am depth schema out args' hsz _
      exfalso
      simp only [FilterGroup.mk.sizeOf_spec] at hsz
      omega
    · intro gs args am depth schema subs args' hsz _
      exfalso
      cases gs with
      | nil => simp only [List.nil.sizeOf_spec] at hsz; omega
      | cons g rest => simp only [List.cons.sizeOf_spec] at hsz; omega
  | succ n ih =>
    constructor
    · intro oper fs gs args am depth schema out args' hsz h
      have hszg : sizeOf gs ≤ n := by
        simp only [FilterGroup.mk.sizeOf_spec] at hsz
        omega
      simp only [buildFilterGroup] at h
      by_cases hd : depth > maxFilterDepth
      · rw [if_pos hd] at h; cases h
      · rw [if_neg hd] at h
        by_cases hcond : strToUpper oper ≠ "AND" ∧ strToUpper oper ≠ "OR"
        · rw [if_pos hcond] at h; cases h
        · rw [if_neg hcond] at h
          cases hcf : collectFilters am schema args fs with
          | error e => rw [hcf] at h; cases h
          | ok pr1 =>
            obtain ⟨parts, args1⟩ := pr1
            rw [hcf] at h
            dsimp only at h
            cases hgl : buildGroupList gs args1 am depth schema with
            | error e => rw [hgl] at h; cases h
            | ok pr2 =>
              obtain ⟨subParts, args2⟩ := pr2
              rw [hgl] at h
              dsimp only at h
              obtain ⟨vs1, hvs1, hjoin1⟩ :=
                collectFilters_phIdx am schema fs args parts args1 hcf
              obtain ⟨vs2, hvs2, hjoin2⟩ :=
                ih.2 gs args1 am depth schema subParts args2 hszg hgl
              by_cases hall : parts ++ subParts = []
              · rw [if_pos hall] at h
                cases h
                obtain ⟨hp, hs⟩ := List.append_eq_nil.mp hall
                subst hp hs
                simp only [List.map_nil, List.flatten_nil] at hjoin1 hjoin2
                have h1 : vs1.length = 0 := by
                  by_contra hne
                  have := congrArg List.length hjoin1
                  simp at this
                  omega
                have h2 : vs2.length = 0 := by
                  by_contra hne
                  have := congrArg List.length hjoin2
                  simp at this
                  omega
                have hv1 : vs1 = [] := List.length_eq_zero.mp h1
                have hv2 : vs2 = [] := List.length_eq_zero.mp h2
                subst hv1 hv2
                simp only [List.append_nil] at hvs1 hvs2
                refine ⟨[], ?_, ?_⟩
                · rw [hvs2, hvs1]; simp
                · simp [phIdx]
              · rw [if_neg hall] at h
                cases h
                refine ⟨vs1 ++ vs2, ?_, ?_⟩
                · rw [hvs2, hvs1]; simp
                · rw [phIdx_joinParts]
                  rw [List.map_append, List.flatten_append, hjoin1, hjoin2]
                  have hl1 : args1.length = args.length + vs1.length := by rw [hvs1]; simp
                  rw [hl1]
                  have harr : args.length + vs1.length + 1 = (args.length + 1) + vs1.length := by
                    omega
                  rw [harr, range'_add_right]
                  simp
    · intro gs args am depth schema subs args' hsz h
      cases gs with
      | nil =>
        simp only [buildGroupList] at h
        cases h
        exact ⟨[], by simp, by simp⟩
      | cons g rest =>
        obtain ⟨o2, fl2, gl2⟩ := g
        have hszg : sizeOf (FilterGroup.mk o2 fl2 gl2) ≤ n := by
          simp only [List.cons.sizeOf_spec] at hsz
          omega
        have hszr : sizeOf rest ≤ n := by
          simp only [List.cons.sizeOf_spec] at hsz
          omega
        simp only [buildGroupList] at h
        cases hg : buildFilterGroup (.mk o2 fl2 gl2) args am (depth + 1) schema with
        | error e => rw [hg] at h; cases h
        | ok pr1 =>
          obtain ⟨sub, args1⟩ := pr1
          rw [hg] at h
          dsimp only at h
          cases hrest : buildGroupList rest args1 am depth schema with
          | error e => rw [hrest] at h; cases h
          | ok pr2 =>
            obtain ⟨subs2, args2⟩ := pr2
            rw [hrest] at h
            dsimp only at h
            obtain ⟨vs1, hvs1, hjoin1⟩ :=
              ih.1 o2 fl2 gl2 args am (depth + 1) schema sub args1 hszg hg
            obtain ⟨vs2, hvs2, hjoin2⟩ :=
              ih.2 rest args1 am depth schema subs2 args2 hszr hrest
            by_cases hsub : sub = []
            · rw [if_pos hsub] at h
              cases h
              subst hsub
              simp only [phIdx] at hjoin1
              have h1 : vs1.length = 0 := by
                by_contra hne
                have := congrArg List.length hjoin1
                simp at this
                omega
              have hv1 : vs1 = [] := List.length_eq_zero.mp h1
              subst hv1
              simp only [List.append_nil] at hvs1
              subst hvs1
              exact ⟨vs2, hvs2, hjoin2⟩
            · rw [if_neg hsub] at h
              cases h
              refine ⟨vs1 ++ vs2, ?_, ?_⟩
              · rw [hvs2, hvs1]; simp
              · simp only [List.map_cons, List.flatten_cons]
                rw [phIdx_append, phIdx_append]
                simp only [phIdx]
                rw [hjoin1, hjoin2]
                have hl1 : args1.length = args.length + vs1.length := by rw [hvs1]; simp
                rw [hl1]
                have harr : args.length + vs1.length + 1 = (args.length + 1) + vs1.length := by
                  omega
                rw [harr]
                simp only [List.append_nil, List.nil_append]
                rw [range'_add_right]
                simp

/-- Spec of buildFilterGroup: on success the argument list is extended by
the values of the rendered filters, and the placeholder indices of the
rendered group continue the argument count one-for-one. -/
theorem buildFilterGroup_phIdx (g : FilterGroup) (args : List Val) (am : AliasMap)
    (depth : Nat) (schema : Option Schema) (out : List Frag) (args' : List Val)
    (h : buildFilterGroup g args am depth schema = .ok (out, args')) :
    ∃ vs, args' = args ++ vs ∧ phIdx out = List.range' (args.length + 1) vs.length := by
  obtain ⟨oper, fs, gs⟩ := g
  exact (groupPhIdx_rec (sizeOf (FilterGroup.mk oper fs gs))).1 oper fs gs args am depth
    schema out args' (Nat.le_refl _) h

/-- Spec of the nested-group loop: same argument extension and placeholder
continuation property, over the flattened parts. -/
theorem buildGroupList_phIdx (gs : List FilterGroup) (args : List Val) (am : AliasMap)
    (depth : Nat) (schema : Option Schema) (subs : List (List Frag)) (args' : List Val)
    (h : buildGroupList gs args am depth schema = .ok (subs, args')) :
    ∃ vs, args' = args ++ vs ∧
      (subs.map phIdx).flatten = List.range' (args.length + 1) vs.length :=
  (groupPhIdx_rec (sizeOf gs)).2 gs args am depth schema subs args' (Nat.le_refl _) h

/-- Spec of buildKeysetPagination: it never fails, appends at most one
argument, and its placeholder index continues the argument count. -/
theorem buildKeysetPagination_phIdx (q : Query) (args : List Val) (hw : Bool)
    (out : List Frag) (args' : List Val)
    (h : buildKeysetPagination q args hw = .ok (out, args')) :
    ∃ vs, args' = args ++ vs ∧ phIdx out = List.range' (args.length + 1) vs.length := by
  simp only [buildKeysetPagination] at h
  cases hs : q.sorts with
  | nil => rw [hs] at h; cases h; exact ⟨[], by simp, by simp [phIdx]⟩
  | cons s0 rest =>
    rw [hs] at h
    dsimp only at h
    by_cases ht : q.pagination.Typ ≠ "keyset"
    · rw [if_pos ht] at h; cases h; exact ⟨[], by simp, by simp [phIdx]⟩
    · rw [if_neg ht] at h
      cases hl : q.pagination.LastSeen.lookup
          (s0.Column.TableAlias ++ "." ++ s0.Column.ColumnName) with
      | none => rw [hl] at h; cases h; exact ⟨[], by simp, by simp [phIdx]⟩
      | some v =>
        rw [hl] at h
        cases h
        refine ⟨[v], by simp, ?_⟩
        simp [phIdx, List.range']

/-- Spec of buildLimitOffset: zero, one or two arguments are appended and
the placeholder indices continue the argument count. -/
theorem buildLimitOffset_phIdx (q : Query) (args : List Val) (out : List Frag)
    (args' : List Val) (h : buildLimitOffset q args = (out, args')) :
    ∃ vs, args' = args ++ vs ∧ phIdx out = List.range' (args.length + 1) vs.length := by
  simp only [buildLimitOffset] at h
  by_cases h1 : q.limit ≤ 0
  · rw [if_pos h1] at h; cases h; exact ⟨[], by simp, by simp [phIdx]⟩
  · rw [if_neg h1] at h
    by_cases h2 : q.pagination.Typ = "keyset" ∨ q.dialect.placeholder 1 = ":1"
    · rw [if_pos h2] at h
      cases h
      exact ⟨[Val.vInt q.limit], by simp, by simp [phIdx, List.range']⟩
    · rw [if_neg h2] at h
      by_cases h3 : q.offset > 0
      · rw [if_pos h3] at h
        cases h
        refine ⟨[Val.vInt q.limit, Val.vInt q.offset], by simp, ?_⟩
        simp [phIdx, List.range']
      · rw [if_neg h3] at h
        cases h
        exact ⟨[Val.vInt q.limit], by simp, by simp [phIdx, List.range']⟩

/-- Spec of the WHERE block of buildFilters. -/
theorem buildFiltersWhere_phIdx (q : Query) (args : List Val) (am : AliasMap)
    (schema : Option Schema) (frags : List Frag) (args1 : List Val) (hw : Bool)
    (h : buildFiltersWhere q args am schema = .ok (frags, args1, hw)) :
    ∃ vs, args1 = args ++ vs ∧ phIdx frags = List.range' (args.length + 1) vs.length := by
  simp only [buildFiltersWhere] at h
  cases hwg : q.whereG with
  | none => rw [hwg] at h; cases h; exact ⟨[], by simp, by simp [phIdx]⟩
  | some w =>
    rw [hwg] at h
    dsimp only at h
    cases hg : buildFilterGroup w args am 0 schema with
    | error e => rw [hg] at h; cases h
    | ok pr =>
      obtain ⟨wc, argsA⟩ := pr
      rw [hg] at h
      dsimp only at h
      obtain ⟨vs, hvs, hjoin⟩ := buildFilterGroup_phIdx w args am 0 schema wc argsA hg
      by_cases hempty : wc = []
      · rw [if_pos hempty] at h
        cases h
        subst hempty
        exact ⟨vs, hvs, by simpa [phIdx] using hjoin⟩
      · rw [if_neg hempty] at h
        cases h
        exact ⟨vs, hvs, by simpa [phIdx] using hjoin⟩

/-- Spec of the keyset block of buildFilters: it continues the placeholder
indices of the WHERE block. -/
theorem buildFiltersKeyset_phIdx (q : Query) (frags : List Frag) (args args1 : List Val)
    (hasWhere : Bool) (vs1 : List Val) (hargs : args1 = args ++ vs1)
    (hfr : phIdx frags = List.range' (args.length + 1) vs1.length)
    (out : List Frag) (args' : List Val)
    (h : buildFiltersKeyset q frags args1 hasWhere = .ok (out, args')) :
    ∃ vs, args' = args ++ vs ∧ phIdx out = List.range' (args.length + 1) vs.length := by
  simp only [buildFiltersKeyset] at h
  by_cases hc : q.pagination.Typ = "keyset" ∧ q.sorts ≠ []
  · rw [if_pos hc] at h
    cases hk : buildKeysetPagination q args1 hasWhere with
    | error e => rw [hk] at h; cases h
    | ok pr =>
      obtain ⟨kc, args2⟩ := pr
      rw [hk] at h
      dsimp only at h
      obtain ⟨vs2, hvs2, hjoin2⟩ := buildKeysetPagination_phIdx q args1 hasWhere kc args2 hk
      have hl1 : args1.length = args.length + vs1.length := by rw [hargs]; simp
      have hcont : phIdx (frags ++ kc) = List.range' (args.length + 1) (vs1 ++ vs2).length := by
        rw [phIdx_append, hfr, hjoin2, hl1]
        have harr : args.length + vs1.length + 1 = (args.length + 1) + vs1.length := by omega
        rw [harr, range'_add_right]
        simp
      by_cases hke : kc = []
      · rw [if_pos hke] at h
        cases h
        subst hke
        refine ⟨vs1 ++ vs2, by rw [hvs2, hargs]; simp, ?_⟩
        simpa using hcont
      · rw [if_neg hke] at h
        cases hasWhere with
        | true =>
          cases h
          refine ⟨vs1 ++ vs2, by rw [hvs2, hargs]; simp, ?_⟩
          rw [phIdx_append, phIdx_append]
          simp only [phIdx]
          rw [phIdx_append] at hcont
          simpa using hcont
        | false =>
          cases h
          refine ⟨vs1 ++ vs2, by rw [hvs2, hargs]; simp, ?_⟩
          rw [phIdx_append, phIdx_append]
          simp only [phIdx]
          rw [phIdx_append] at hcont
          simpa using hcont
  · rw [if_neg hc] at h
    cases h
    exact ⟨vs1, hargs, hfr⟩

/-- The SELECT projection list contains no placeholders. -/
theorem buildProjections_phIdx (q : Query) (am : AliasMap) (schema : Option Schema)
    (ba : String) (out : List Frag) (h : buildProjections q am schema ba = .ok out) :
    phIdx out = [] := by
  simp only [buildProjections] at h
  by_cases hp : q.projections = []
  · rw [if_pos hp] at h; cases h; rfl
  · rw [if_neg hp] at h
    cases hc : collectProjCols am schema q.projections with
    | error e => rw [hc] at h; cases h
    | ok cols => rw [hc] at h; cases h; rfl

/-- The JOIN clauses contain no placeholders. -/
theorem buildJoins_phIdx (am : AliasMap) (schema : Option Schema) :
    ∀ (js : List Join) (out : List Frag), buildJoins am schema js = .ok out →
      phIdx out = [] := by
  intro js
  induction js with
  | nil => intro out h; simp only [buildJoins] at h; cases h; rfl
  | cons j js ih =>
    intro out h
    simp only [buildJoins] at h
    cases hv : validateJoin j am schema with
    | error e => rw [hv] at h; cases h
    | ok u =>
      rw [hv] at h
      cases hr : buildJoins am schema js with
      | error e => rw [hr] at h; cases h
      | ok rest =>
        rw [hr] at h
        cases h
        simpa [phIdx] using ih rest hr

/-- The ORDER BY clause contains no placeholders. -/
theorem buildOrderBy_phIdx (q : Query) (am : AliasMap) (schema : Option Schema)
    (out : List Frag) (h : buildOrderBy q am schema = .ok out) : phIdx out = [] := by
  simp only [buildOrderBy] at h
  by_cases hs : q.sorts = []
  · rw [if_pos hs] at h; cases h; rfl
  · rw [if_neg hs] at h
    cases hc : collectSortParts am schema q.sorts with
    | error e => rw [hc] at h; cases h
    | ok parts => rw [hc] at h; cases h; rfl

/-- Spec of the whole WHERE phase: arguments appended by filters and the
keyset predicate carry placeholder indices continuing the argument count. -/
theorem buildFilters_phIdx (q : Query) (args : List Val) (am : AliasMap)
    (schema : Option Schema) (out : List Frag) (args' : List Val)
    (h : buildFilters q args am schema = .ok (out, args')) :
    ∃ vs, args' = args ++ vs ∧ phIdx out = List.range' (args.length + 1) vs.length := by
  simp only [buildFilters] at h
  cases hw : buildFiltersWhere q args am schema with
  | error e => rw [hw] at h; cases h
  | ok pr =>
    obtain ⟨frags, args1, hasW⟩ := pr
    rw [hw] at h
    dsimp only at h
    obtain ⟨vs1, hvs1, hfr⟩ := buildFiltersWhere_phIdx q args am schema frags args1 hasW hw
    exact buildFiltersKeyset_phIdx q frags args args1 hasW vs1 hvs1 hfr out args' h

/-- Placeholder indices of a successful render are exactly one through the
number of returned arguments, in textual order. -/
theorem BuildE_phIdx (q : Query) (frags : List Frag) (args : List Val)
    (h : BuildE q = .ok (frags, args)) :
    phIdx frags = List.range' 1 args.length := by
  simp only [BuildE] at h
  cases he : q.errors with
  | cons e es => rw [he] at h; cases h
  | nil =>
    rw [he] at h
    cases hb : validateBase q with
    | error e => rw [hb] at h; cases h
    | ok u =>
      rw [hb] at h
      dsimp only at h
      cases hra : registerAliases q with
      | error e => rw [hra] at h; cases h
      | ok am =>
        rw [hra] at h
        dsimp only at h
        cases hic : q.isCount with
        | true =>
          simp only [hic, eq_self_iff_true, if_true] at h
          cases hj : buildJoins am q.allowedSchema q.joins with
          | error e => rw [hj] at h; cases h
          | ok joinF =>
            rw [hj] at h
            dsimp only at h
            cases hf : buildFilters q [] am q.allowedSchema with
            | error e => rw [hf] at h; cases h
            | ok pr =>
              obtain ⟨whereF, args1⟩ := pr
              rw [hf] at h
              dsimp only at h
              cases h
              obtain ⟨vs, hvs, hph⟩ := buildFilters_phIdx q [] am q.allowedSchema whereF args hf
              simp only [List.nil_append, List.length_nil] at hvs hph
              subst hvs
              rw [phIdx_append, phIdx_append, phIdx_append]
              simp only [phIdx]
              rw [buildJoins_phIdx am q.allowedSchema q.joins joinF hj, hph]
              simp
        | false =>
          simp only [hic, Bool.false_eq_true, if_false] at h
          cases hp : buildProjections q am q.allowedSchema (getBaseAlias q) with
          | error e => rw [hp] at h; cases h
          | ok selF =>
            rw [hp] at h
            dsimp only at h
            cases hj : buildJoins am q.allowedSchema q.joins with
            | error e => rw [hj] at h; cases h
            | ok joinF =>
              rw [hj] at h
              dsimp only at h
              cases hf : buildFilters q [] am q.allowedSchema with
              | error e => rw [hf] at h; cases h
              | ok pr =>
                obtain ⟨whereF, args1⟩ := pr
                rw [hf] at h
                dsimp only at h
                cases ho : buildOrderBy q am q.allowedSchema with
                | error e => rw [ho] at h; cases h
                | ok orderF =>
                  rw [ho] at h
                  dsimp only at h
                  cases hlo : buildLimitOffset q args1 with
                  | mk loF loA =>
                    rw [hlo] at h
                    dsimp only at h
                    cases h
                    obtain ⟨vs1, hvs1, hph1⟩ :=
                      buildFilters_phIdx q [] am q.allowedSchema whereF args1 hf
                    simp only [List.nil_append, List.length_nil, Nat.zero_add] at hvs1 hph1
                    obtain ⟨vs2, hvs2, hph2⟩ :=
                      buildLimitOffset_phIdx q args1 loF args hlo
                    rw [phIdx_append, phIdx_append, phIdx_append, phIdx_append,
                      phIdx_append]
                    simp only [phIdx]
                    rw [buildProjections_phIdx q am q.allowedSchema (getBaseAlias q) selF hp,
                      buildJoins_phIdx am q.allowedSchema q.joins joinF hj,
                      buildOrderBy_phIdx q am q.allowedSchema orderF ho, hph1, hph2]
                    simp only [List.nil_append, List.append_nil]
                    rw [hvs1, Nat.add_comm vs1.length 1, range'_add_right, hvs2, hvs1]
                    simp

/-! Claim theorems. -/

/-- Example configuration with one filter, a limit and an offset on the
Postgres dialect, used to witness the placeholder correspondence claim. -/
def c1Query : Query :=
  (((((New PostgresDialect).From "users" "u").Select ["u.id"]).AddEq "u.id"
    (Val.vInt 3)).Limit 10).Offset 5

/-- C1: for every configuration on which Build returns no error, the
placeholder tokens of the rendered output, in left-to-right textual order,
carry the indices one through the length of the returned argument list, so
the Nth placeholder binds to the Nth argument, and the returned SQL string
is the flattening of exactly those fragments through the dialect. -/
theorem c1_placeholder_argument_correspondence (q : Query) (frags : List Frag)
    (args : List Val) (h : BuildE q = .ok (frags, args)) :
    phIdx frags = List.range' 1 args.length ∧
      Build q = (flatten q.dialect frags, args, none) := by
  refine ⟨BuildE_phIdx q frags args h, ?_⟩
  simp [Build, h]

/-- Witness for C1 at a concrete query: three placeholders, indices one,
two, three, binding the filter value, the limit and the offset. -/
theorem c1_placeholder_argument_correspondence_witness :
    phIdx [Frag.lit "SELECT u.id", Frag.lit " FROM users u", Frag.lit " WHERE ",
        Frag.lit "u.id = ", Frag.ph 1, Frag.lit " LIMIT ", Frag.ph 2,
        Frag.lit " OFFSET ", Frag.ph 3] =
      List.range' 1 ([Val.vInt 3, Val.vInt 10, Val.vInt 5] : List Val).length ∧
    Build c1Query =
      (flatten c1Query.dialect
        [Frag.lit "SELECT u.id", Frag.lit " FROM users u", Frag.lit " WHERE ",
          Frag.lit "u.id = ", Frag.ph 1, Frag.lit " LIMIT ", Frag.ph 2,
          Frag.lit " OFFSET ", Frag.ph 3],
        [Val.vInt 3, Val.vInt 10, Val.vInt 5], none) :=
  c1_placeholder_argument_correspondence c1Query
    [Frag.lit "SELECT u.id", Frag.lit " FROM users u", Frag.lit " WHERE ",
      Frag.lit "u.id = ", Frag.ph 1, Frag.lit " LIMIT ", Frag.ph 2,
      Frag.lit " OFFSET ", Frag.ph 3]
    [Val.vInt 3, Val.vInt 10, Val.vInt 5] (by rfl)

/-- The offset-pagination scenario query from the spec: Postgres dialect,
select one column, limit ten, offset five. -/
def c2Query : Query :=
  ((((New PostgresDialect).From "users" "u").Select ["u.id"]).Limit 10).Offset 5

/-- C2: the limit/offset phase renders nothing when the limit is not
positive (offset alone is never rendered); renders FETCH NEXT consuming
one argument when pagination is keyset or the dialect placeholder for
index one is the Oracle token, regardless of dialect; otherwise renders
LIMIT consuming one argument plus OFFSET consuming a second exactly when
the offset is positive; and the Postgres example renders LIMIT dollar-one
OFFSET dollar-two with arguments ten and five. -/
theorem c2_limit_offset_phase (q : Query) (args : List Val) :
    (q.limit ≤ 0 → buildLimitOffset q args = ([], args)) ∧
    (0 < q.limit → (q.pagination.Typ = "keyset" ∨ q.dialect.placeholder 1 = ":1") →
      buildLimitOffset q args =
        ([Frag.lit " FETCH NEXT ", Frag.ph (args.length + 1), Frag.lit " ROWS ONLY"],
          args ++ [Val.vInt q.limit])) ∧
    (0 < q.limit → ¬ (q.pagination.Typ = "keyset" ∨ q.dialect.placeholder 1 = ":1") →
      q.offset ≤ 0 →
      buildLimitOffset q args = ([Frag.lit " LIMIT ", Frag.ph (args.length + 1)],
        args ++ [Val.vInt q.limit])) ∧
    (0 < q.limit → ¬ (q.pagination.Typ = "keyset" ∨ q.dialect.placeholder 1 = ":1") →
      0 < q.offset →
      buildLimitOffset q args =
        ([Frag.lit " LIMIT ", Frag.ph (args.length + 1), Frag.lit " OFFSET ",
            Frag.ph (args.length + 2)],
          args ++ [Val.vInt q.limit, Val.vInt q.offset])) ∧
    Build c2Query = ("SELECT u.id FROM users u LIMIT $1 OFFSET $2",
      [Val.vInt 10, Val.vInt 5], none) := by
  refine ⟨?_, ?_, ?_, ?_, by rfl⟩
  · intro h
    simp [buildLimitOffset, h]
  · intro h1 h2
    have hn : ¬ q.limit ≤ 0 := by omega
    simp [buildLimitOffset, hn, h2]
  · intro h1 h2 h3
    have hn : ¬ q.limit ≤ 0 := by omega
    have hn3 : ¬ q.offset > 0 := by omega
    simp [buildLimitOffset, hn, h2, hn3]
  · intro h1 h2 h3
    have hn : ¬ q.limit ≤ 0 := by omega
    simp [buildLimitOffset, hn, h2, h3]

/-- Witness for C2 at the concrete Postgres query and at the keyset branch
with concrete arguments. -/
theorem c2_limit_offset_phase_witness :
    buildLimitOffset c2Query [Val.vInt 0] =
      ([Frag.lit " LIMIT ", Frag.ph 2, Frag.lit " OFFSET ", Frag.ph 3],
        [Val.vInt 0, Val.vInt 10, Val.vInt 5]) ∧
    Build c2Query = ("SELECT u.id FROM users u LIMIT $1 OFFSET $2",
      [Val.vInt 10, Val.vInt 5], none) := by
  have h := c2_limit_offset_phase c2Query [Val.vInt 0]
  refine ⟨?_, h.2.2.2.2⟩
  have h4 := h.2.2.2.1 (by decide) (by decide) (by decide)
  simpa using h4

/-- A query whose errors list holds a pre-accumulated error. -/
def c9Query : Query := { New PostgresDialect with errors := ["boom"] }

/-- C9: whenever Build returns a non-nil error it returns the empty SQL
string and an empty argument list, and a pre-accumulated builder error is
returned before any render-time validation runs. -/
theorem c9_error_empty_output (q : Query) (e : String) :
    ((Build q).2.2 = some e → (Build q).1 = "" ∧ (Build q).2.1 = []) ∧
    (∀ es, q.errors = e :: es → Build q = ("", [], some e)) := by
  constructor
  · intro h
    cases hb : BuildE q with
    | error e2 => simp [Build, hb]
    | ok pr => simp [Build, hb] at h
  · intro es he
    have hbe : BuildE q = .error e := by
      simp only [BuildE, he]
    simp [Build, hbe]

/-- Witness for C9: a query carrying a pre-accumulated error builds to the
empty string, no arguments and that error. -/
theorem c9_error_empty_output_witness :
    (Build c9Query).1 = "" ∧ (Build c9Query).2.1 = [] ∧
      Build c9Query = ("", [], some "boom") := by
  have h := c9_error_empty_output c9Query "boom"
  have h2 := h.2 [] (by rfl)
  have h1 := h.1 (by rw [h2])
  exact ⟨h1.1, h1.2, h2⟩

/-- Chain of nested AND groups used to probe the depth bound: the given
group sits below n nested single-child groups. -/
def nestGroups : Nat → FilterGroup → FilterGroup
  | 0, g => g
  | n + 1, g => .mk "AND" [] [nestGroups n g]

/-- Base query whose root filter group is the given tree. -/
def c3Query (g : FilterGroup) : Query :=
  ((New PostgresDialect).From "users" "u").SetWhere g

/-- A group reached at a depth beyond the bound makes the recursion fail
with the depth-exceeded error, whatever the tree below it contains. -/
theorem nestGroups_depth_error (n : Nat) :
    ∀ (g0 : FilterGroup) (args : List Val) (am : AliasMap) (depth : Nat)
      (schema : Option Schema), maxFilterDepth < depth + n →
      buildFilterGroup (nestGroups n g0) args am depth schema =
        .error "filter depth exceeded" := by
  induction n with
  | zero =>
    intro g0 args am depth schema hd
    obtain ⟨oper, fs, gs⟩ := g0
    simp only [nestGroups, buildFilterGroup]
    rw [if_pos (show depth > maxFilterDepth by
      simp only [maxFilterDepth] at hd ⊢; omega)]
  | succ n ih =>
    intro g0 args am depth schema hd
    by_cases hdd : depth > maxFilterDepth
    · obtain ⟨oper, fs, gs⟩ := nestGroups (n + 1) g0
      simp only [buildFilterGroup]
      rw [if_pos hdd]
    · simp only [nestGroups, buildFilterGroup]
      rw [if_neg hdd]
      rw [if_neg (by decide : ¬ (strToUpper "AND" ≠ "AND" ∧ strToUpper "AND" ≠ "OR"))]
      have hsub := ih g0 args am (depth + 1) schema (by
        simp only [maxFilterDepth] at hd ⊢; omega)
      simp only [collectFilters, buildGroupList, hsub]

/-- C3: a root filter group containing a chain of nested groups eleven
levels deep makes Build fail with the depth-exceeded error whatever the
innermost group holds, while a chain nested exactly ten levels deep, with
a valid filter at the bottom, succeeds. -/
theorem c3_filter_depth_bound :
    (∀ g0 : FilterGroup, Build (c3Query (nestGroups 11 g0)) =
      ("", [], some "filter depth exceeded")) ∧
    Build (c3Query (nestGroups 10 (.mk "AND" [F "u.id" "=" (Val.vInt 1)] []))) =
      ("SELECT u.* FROM users u WHERE ((((((((((u.id = $1))))))))))",
        [Val.vInt 1], none) := by
  constructor
  · intro g0
    have herr : buildFilterGroup (nestGroups 11 g0) [] [("u", "users")] 0 none =
        .error "filter depth exceeded" :=
      nestGroups_depth_error 11 g0 [] [("u", "users")] 0 none (by decide)
    simp [Build, BuildE, c3Query, Query.SetWhere, Query.From, New, validateBase,
      registerAliases, registerAliasesAux, getBaseAlias, buildProjections,
      buildJoins, buildFilters, buildFiltersWhere, herr]
  · rfl

/-- Witness for C3: the depth-eleven chain fails and the depth-ten chain
succeeds at concrete inputs. -/
theorem c3_filter_depth_bound_witness :
    Build (c3Query (nestGroups 11 (.mk "AND" [] []))) =
      ("", [], some "filter depth exceeded") ∧
    Build (c3Query (nestGroups 10 (.mk "AND" [F "u.id" "=" (Val.vInt 1)] []))) =
      ("SELECT u.* FROM users u WHERE ((((((((((u.id = $1))))))))))",
        [Val.vInt 1], none) :=
  ⟨c3_filter_depth_bound.1 (.mk "AND" [] []), c3_filter_depth_bound.2⟩

/-- Count-mode example carrying a limit, an offset and a sort. -/
def c5Query : Query :=
  ((((New PostgresDialect).From "users" "u").Count.OrderBy "u.id" "ASC").Limit
    10).Offset 5

/-- C5: in count mode Build returns right after the WHERE phase: the
output is the SELECT COUNT fragment, the FROM fragment, the join
fragments and the WHERE fragments only, so no ORDER BY and no
LIMIT/OFFSET/FETCH fragment is ever appended regardless of configured
sorts, limit or offset; concretely, a count query with a sort, a limit
and an offset renders SELECT COUNT star FROM users u alone. -/
theorem c5_count_short_circuit (q : Query) (am : AliasMap) (jf wf : List Frag)
    (a : List Val) :
    (q.isCount = true → q.errors = [] → validateBase q = .ok () →
      registerAliases q = .ok am → buildJoins am q.allowedSchema q.joins = .ok jf →
      buildFilters q [] am q.allowedSchema = .ok (wf, a) →
      BuildE q = .ok ([Frag.lit "SELECT COUNT(*)",
        Frag.lit (" FROM " ++ q.baseTable ++ " " ++ getBaseAlias q)] ++ jf ++ wf, a)) ∧
    Build c5Query = ("SELECT COUNT(*) FROM users u", [], none) := by
  constructor
  · intro hic he hb hra hj hf
    simp only [BuildE, he, hb, hra, hic, hj, hf, eq_self_iff_true, if_true]
    simp
  · rfl

/-- Witness for C5: the hypotheses hold at the concrete count query and
the short-circuited output follows from the theorem itself. -/
theorem c5_count_short_circuit_witness :
    BuildE c5Query = .ok ([Frag.lit "SELECT COUNT(*)",
        Frag.lit (" FROM " ++ c5Query.baseTable ++ " " ++ getBaseAlias c5Query)]
        ++ [] ++ [], []) ∧
      Build c5Query = ("SELECT COUNT(*) FROM users u", [], none) :=
  ⟨(c5_count_short_circuit c5Query [("u", "users")] [] [] []).1 (by rfl) (by rfl)
    (by rfl) (by rfl) (by rfl) (by rfl),
   (c5_count_short_circuit c5Query [("u", "users")] [] [] []).2⟩

/-- The keyset scenario query from the spec: MySQL dialect, one sort,
keyset pagination with a last-seen value, limit ten. -/
def c6Query : Query :=
  ((((New MySQLDialect).From "users" "u").OrderBy "u.id" "ASC").KeysetPagination
    [("u.id", Val.vInt 42)]).Limit 10

/-- C6: under keyset pagination only the first configured sort column is
consulted: a missing last-seen key yields no predicate and no error; a
present key yields the greater-than comparison when the first sort
direction is ASC and the less-than comparison when DESC, parameterized
with the last-seen value; the sort columns beyond the first never change
the outcome; and buildKeysetPagination never fails. -/
theorem c6_keyset_first_sort (q : Query) (args : List Val) (hw : Bool)
    (s0 : SortCol) (rest : List SortCol) :
    (q.sorts = s0 :: rest →
      q.pagination.LastSeen.lookup
        (s0.Column.TableAlias ++ "." ++ s0.Column.ColumnName) = none →
      buildKeysetPagination q args hw = .ok ([], args)) ∧
    (∀ v, q.sorts = s0 :: rest → q.pagination.Typ = "keyset" →
      q.pagination.LastSeen.lookup
        (s0.Column.TableAlias ++ "." ++ s0.Column.ColumnName) = some v →
      s0.Dir = "ASC" →
      buildKeysetPagination q args hw = .ok
        ([Frag.lit (s0.Column.TableAlias ++ "." ++ s0.Column.ColumnName
            ++ " " ++ ">" ++ " "), Frag.ph (args.length + 1)], args ++ [v])) ∧
    (∀ v, q.sorts = s0 :: rest → q.pagination.Typ = "keyset" →
      q.pagination.LastSeen.lookup
        (s0.Column.TableAlias ++ "." ++ s0.Column.ColumnName) = some v →
      s0.Dir = "DESC" →
      buildKeysetPagination q args hw = .ok
        ([Frag.lit (s0.Column.TableAlias ++ "." ++ s0.Column.ColumnName
            ++ " " ++ "<" ++ " "), Frag.ph (args.length + 1)], args ++ [v])) ∧
    (∀ rest2, q.sorts = s0 :: rest →
      buildKeysetPagination { q with sorts := s0 :: rest2 } args hw =
        buildKeysetPagination q args hw) ∧
    (∃ r, buildKeysetPagination q args hw = .ok r) ∧
    Build c6Query = ("SELECT u.* FROM users u WHERE u.id > ? ORDER BY u.id ASC"
      ++ " FETCH NEXT ? ROWS ONLY", [Val.vInt 42, Val.vInt 10], none) := by
  refine ⟨?_, ?_, ?_, ?_, ?_, by rfl⟩
  · intro hs hl
    simp only [buildKeysetPagination, hs]
    by_cases ht : q.pagination.Typ ≠ "keyset"
    · rw [if_pos ht]
    · rw [if_neg ht]
      simp only [hl]
  · intro v hs ht hl hd
    simp only [buildKeysetPagination, hs]
    rw [if_neg (by simp [ht])]
    simp only [hl, hd]
    have : strToUpper "ASC" = "DESC" ↔ False := by decide
    simp only [this, if_false]
    simp
  · intro v hs ht hl hd
    simp only [buildKeysetPagination, hs]
    rw [if_neg (by simp [ht])]
    simp only [hl, hd]
    have : strToUpper "DESC" = "DESC" ↔ True := by decide
    simp only [this, if_true]
    simp
  · intro rest2 hs
    simp only [buildKeysetPagination, hs]
  · simp only [buildKeysetPagination]
    cases hs : q.sorts with
    | nil => exact ⟨([], args), rfl⟩
    | cons s r =>
      dsimp only
      by_cases ht : q.pagination.Typ ≠ "keyset"
      · rw [if_pos ht]; exact ⟨([], args), rfl⟩
      · rw [if_neg ht]
        cases hl : q.pagination.LastSeen.lookup
            (s.Column.TableAlias ++ "." ++ s.Column.ColumnName) with
        | none => exact ⟨([], args), by simp [hl]⟩
        | some v =>
          exact ⟨([Frag.lit ((s.Column.TableAlias ++ "." ++ s.Column.ColumnName ++ " "
              ++ if strToUpper s.Dir = "DESC" then "<" else ">") ++ " "),
            Frag.ph (args ++ [v]).length], args ++ [v]), by simp only [hl]⟩

/-- Witness for C6 at the concrete MySQL keyset query: the first sort is
u.id ascending, the last-seen value is bound and the predicate uses the
greater-than comparison. -/
theorem c6_keyset_first_sort_witness :
    buildKeysetPagination c6Query [] false = .ok
      ([Frag.lit ("u" ++ "." ++ "id" ++ " " ++ ">" ++ " "), Frag.ph 1],
        [Val.vInt 42]) ∧
    Build c6Query = ("SELECT u.* FROM users u WHERE u.id > ? ORDER BY u.id ASC"
      ++ " FETCH NEXT ? ROWS ONLY", [Val.vInt 42, Val.vInt 10], none) := by
  have h := c6_keyset_first_sort c6Query [] false
    { Column := { TableAlias := "u", ColumnName := "id" }, Dir := "ASC" } []
  refine ⟨?_, h.2.2.2.2.2⟩
  have h2 := h.2.1 (Val.vInt 42) (by rfl) (by rfl) (by rfl) (by rfl)
  simpa using h2

/-- splitOnDot never returns the empty list. -/
theorem splitOnDot_ne_nil (l : List Char) : splitOnDot l ≠ [] := by
  induction l with
  | nil => simp [splitOnDot]
  | cons c rest ih =>
    simp only [splitOnDot]
    by_cases hc : c = '.'
    · rw [if_pos hc]; simp
    · rw [if_neg hc]
      cases h : splitOnDot rest with
      | nil => simp
      | cons p ps => simp

/-- With no dot in the list the split is the whole list alone. -/
theorem splitOnDot_no_dot (l : List Char) (h : l.count '.' = 0) :
    splitOnDot l = [l] := by
  induction l with
  | nil => rfl
  | cons c rest ih =>
    by_cases hc : c = '.'
    · subst hc
      simp [List.count_cons] at h
    · have hr : rest.count '.' = 0 := by
        simp [List.count_cons, hc] at h
        exact h
      simp only [splitOnDot, if_neg hc]
      rw [ih hr]

/-- With exactly one dot, the split is the part before the dot and the
part after it. -/
theorem splitOnDot_one_dot (l : List Char) (h : l.count '.' = 1) :
    splitOnDot l = [l.takeWhile (fun c => c != '.'),
      (l.dropWhile (fun c => c != '.')).tail] := by
  induction l with
  | nil => simp at h
  | cons c rest ih =>
    by_cases hc : c = '.'
    · subst hc
      have hr : rest.count '.' = 0 := by
        simp [List.count_cons] at h
        omega
      simp only [splitOnDot, if_pos rfl]
      rw [splitOnDot_no_dot rest hr]
      simp [List.takeWhile, List.dropWhile]
    · have hr : rest.count '.' = 1 := by
        simpa [List.count_cons, hc] using h
      simp only [splitOnDot, if_neg hc]
      rw [ih hr]
      have hcb : (c != '.') = true := by simpa [bne_iff_ne] using hc
      simp [List.takeWhile, List.dropWhile, hcb]

/-- The split has one more piece than the number of dots. -/
theorem splitOnDot_length (l : List Char) :
    (splitOnDot l).length = l.count '.' + 1 := by
  induction l with
  | nil => simp [splitOnDot]
  | cons c rest ih =>
    by_cases hc : c = '.'
    · subst hc
      simp [splitOnDot, List.count_cons, ih]
    · simp only [splitOnDot, if_neg hc]
      cases h : splitOnDot rest with
      | nil => exact absurd h (splitOnDot_ne_nil rest)
      | cons p ps =>
        rw [h] at ih
        simp only [List.length_cons] at ih ⊢
        simp [List.count_cons, hc, ih]

/-- C7 counterexample: a reference with two dots is not split at the first
dot; it keeps the whole string as column name with an empty alias. -/
theorem c7_col_counterexample :
    0 < ("a.b.c" : String).data.count '.' ∧
      Col "a.b.c" = ⟨"", "a.b.c"⟩ ∧ Col "a.b.c" ≠ ⟨"a", "b.c"⟩ := by
  refine ⟨by decide, by rfl, by decide⟩

/-- C7 amended: Col splits a reference at the dot exactly when the string
contains exactly one dot; with no dot, or with two or more dots, the
result has an empty alias and the whole string as column name. -/
theorem c7_col_split (s : String) :
    (s.data.count '.' = 0 → Col s = ⟨"", s⟩) ∧
    (s.data.count '.' = 1 →
      Col s = ⟨String.mk (s.data.takeWhile (fun c => c != '.')),
        String.mk ((s.data.dropWhile (fun c => c != '.')).tail)⟩) ∧
    (2 ≤ s.data.count '.' → Col s = ⟨"", s⟩) := by
  refine ⟨?_, ?_, ?_⟩
  · intro h
    simp only [Col, splitOnDot_no_dot s.data h]
  · intro h
    simp only [Col, splitOnDot_one_dot s.data h]
  · intro h
    have hlen : (splitOnDot s.data).length = s.data.count '.' + 1 :=
      splitOnDot_length s.data
    simp only [Col]
    cases h1 : splitOnDot s.data with
    | nil => rfl
    | cons a t =>
      cases h2 : t with
      | nil => rfl
      | cons b t2 =>
        cases h3 : t2 with
        | nil =>
          rw [h1, h2, h3] at hlen
          simp at hlen
          omega
        | cons d t3 => rfl

/-- Witness for C7 at concrete references with zero, one and two dots. -/
theorem c7_col_split_witness :
    Col "id" = ⟨"", "id"⟩ ∧ Col "u.id" = ⟨"u", "id"⟩ ∧
      Col "a.b.c" = ⟨"", "a.b.c"⟩ :=
  ⟨(c7_col_split "id").1 (by decide),
   ((c7_col_split "u.id").2.1 (by decide)).trans (by decide),
   (c7_col_split "a.b.c").2.2 (by decide)⟩

/-- Spec-side scan, following the claim wording: some join has an empty
alias, or an alias equal to one already seen (the seen list starts with
the base alias and grows with each join alias in order). -/
def hasAliasDefect (seen : List String) : List Join → Bool
  | [] => false
  | j :: js =>
    j.Alias = "" || seen.contains j.Alias || hasAliasDefect (seen ++ [j.Alias]) js

/-- Spec-side first error of the scan: join alias required when the first
offending join has an empty alias, duplicate alias when its alias was
already seen. -/
def firstAliasError (seen : List String) : List Join → Option String
  | [] => none
  | j :: js =>
    if j.Alias = "" then some "join alias required"
    else if seen.contains j.Alias then some ("duplicate alias: " ++ j.Alias)
    else firstAliasError (seen ++ [j.Alias]) js

/-- A lookup succeeds exactly when the key list contains the key. -/
theorem lookup_isSome_iff_keys (a : String) (am : AliasMap) :
    (am.lookup a).isSome = (am.map Prod.fst).contains a := by
  induction am with
  | nil => rfl
  | cons p rest ih =>
    obtain ⟨k, v⟩ := p
    simp only [List.lookup, List.map_cons, List.contains_cons]
    by_cases hk : a == k
    · simp [hk]
    · have hk2 : (a == k) = false := by simpa using hk
      simp [hk2, ih]

/-- The alias scan fails exactly as firstAliasError says, relative to the
keys already registered. -/
theorem registerAliasesAux_spec (js : List Join) :
    ∀ (am : AliasMap) (e : String),
      registerAliasesAux am js = .error e ↔
        firstAliasError (am.map Prod.fst) js = some e := by
  induction js with
  | nil =>
    intro am e
    simp [registerAliasesAux, firstAliasError]
  | cons j rest ih =>
    intro am e
    simp only [registerAliasesAux, firstAliasError]
    by_cases h1 : j.Alias = ""
    · simp [h1]
    · rw [if_neg h1, if_neg h1]
      by_cases h2 : (am.lookup j.Alias).isSome
      · have h2k : (am.map Prod.fst).contains j.Alias = true := by
          rw [← lookup_isSome_iff_keys]; exact h2
        rw [if_pos h2, if_pos h2k]
        constructor
        · intro hh; cases hh; rfl
        · intro hh; cases hh; rfl
      · have h2k : (am.map Prod.fst).contains j.Alias = false := by
          rw [← lookup_isSome_iff_keys]
          exact Bool.eq_false_iff.mpr h2
        rw [if_neg h2, if_neg (show ¬ ((am.map Prod.fst).contains j.Alias = true) by
          simp only [h2k]; decide)]
        have hrec := ih (am ++ [(j.Alias, j.Table)]) e
        simpa [List.map_append] using hrec

/-- The alias scan fails exactly when the defect scan reports true. -/
theorem registerAliasesAux_defect (js : List Join) :
    ∀ (am : AliasMap),
      (∃ e, registerAliasesAux am js = .error e) ↔
        hasAliasDefect (am.map Prod.fst) js = true := by
  induction js with
  | nil =>
    intro am
    simp [registerAliasesAux, hasAliasDefect]
  | cons j rest ih =>
    intro am
    simp only [registerAliasesAux, hasAliasDefect]
    by_cases h1 : j.Alias = ""
    · simp [h1]
    · rw [if_neg h1]
      by_cases h2 : (am.lookup j.Alias).isSome
      · have h2k : (am.map Prod.fst).contains j.Alias = true := by
          rw [← lookup_isSome_iff_keys]; exact h2
        rw [if_pos h2]
        simp only [h2k, Bool.true_or, Bool.or_true]
        simp
      · have h2k : (am.map Prod.fst).contains j.Alias = false := by
          rw [← lookup_isSome_iff_keys]
          exact Bool.eq_false_iff.mpr h2
        rw [if_neg h2]
        have hrec := ih (am ++ [(j.Alias, j.Table)])
        simp only [List.map_append, List.map_cons, List.map_nil] at hrec
        have h1b : (decide (j.Alias = "")) = false := decide_eq_false h1
        simp only [h1b, h2k, Bool.false_or]
        exact hrec

/-- Example query whose two joins are both aliased u, colliding with the
base alias u. -/
def c8Query : Query :=
  (((New PostgresDialect).From "users" "u").AddJoin "INNER" "orders" "u"
    "u.id" "o.id" "=").AddJoin "INNER" "customers" "u" "u.id" "c.user_id" "="

/-- C8: a join with an empty alias, or an alias equal to the base alias or
to an earlier join alias, makes Build fail with no SQL produced; and when
the builder carries no prior error and the base is valid, the error is the
one the scan reports for the first offending join: join alias required for
an empty alias, duplicate alias otherwise. -/
theorem c8_join_alias_validation (q : Query) :
    (hasAliasDefect [getBaseAlias q] q.joins = true →
      ∃ e, Build q = ("", [], some e)) ∧
    (∀ e, q.errors = [] → validateBase q = .ok () →
      firstAliasError [getBaseAlias q] q.joins = some e →
      Build q = ("", [], some e)) := by
  constructor
  · intro hdef
    cases he : q.errors with
    | cons e0 es => exact ⟨e0, by simp [Build, BuildE, he]⟩
    | nil =>
      cases hb : validateBase q with
      | error e0 => exact ⟨e0, by simp [Build, BuildE, he, hb]⟩
      | ok u =>
        obtain ⟨e, herr⟩ :=
          (registerAliasesAux_defect q.joins [(getBaseAlias q, q.baseTable)]).mpr
            (by simpa using hdef)
        refine ⟨e, ?_⟩
        have hra : registerAliases q = .error e := herr
        simp [Build, BuildE, he, hb, hra]
  · intro e he hb hfae
    have herr : registerAliasesAux [(getBaseAlias q, q.baseTable)] q.joins = .error e :=
      (registerAliasesAux_spec q.joins [(getBaseAlias q, q.baseTable)] e).mpr
        (by simpa using hfae)
    have hra : registerAliases q = .error e := herr
    simp [Build, BuildE, he, hb, hra]

/-- Witness for C8: the double-u query fails with the duplicate alias
error and produces no SQL. -/
theorem c8_join_alias_validation_witness :
    Build c8Query = ("", [], some ("duplicate alias: " ++ "u")) :=
  (c8_join_alias_validation c8Query).2 ("duplicate alias: " ++ "u") (by rfl)
    (by rfl) (by rfl)

/-- Open-world query selecting a single reference. -/
def c10SelQuery (s : String) : Query :=
  ((New PostgresDialect).From "users" "u").Select [s]

/-- Open-world query filtering on a single reference. -/
def c10EqQuery (s : String) (v : Val) : Query :=
  ((New PostgresDialect).From "users" "u").AddEq s v

/-- C10: without a schema, a projection or filter whose column reference
contains no dot builds successfully and renders the reference with an
empty alias prefix, that is as dot-column with a leading dot. -/
theorem c10_no_dot_leading_dot (s : String) (v : Val) :
    (s.data.count '.' = 0 →
      Build (c10SelQuery s) = ("SELECT ." ++ s ++ " FROM users u", [], none)) ∧
    (s.data.count '.' = 0 →
      Build (c10EqQuery s v) =
        ("SELECT u.* FROM users u WHERE ." ++ s ++ " = $1", [v], none)) := by
  constructor
  · intro h
    have hcol : Col s = ⟨"", s⟩ := by simp only [Col, splitOnDot_no_dot s.data h]
    simp [Build, BuildE, c10SelQuery, Query.Select, Query.From, New, validateBase,
      registerAliases, registerAliasesAux, getBaseAlias, buildProjections,
      collectProjCols, hcol, validateCol, buildJoins, buildFilters, buildFiltersWhere,
      buildFiltersKeyset, buildOrderBy, buildLimitOffset, flatten, Frag.render,
      String.intercalate]
    apply String.ext
    simp [String.join, String.intercalate.go]
  · intro h
    have hcol : Col s = ⟨"", s⟩ := by simp only [Col, splitOnDot_no_dot s.data h]
    simp [Build, BuildE, c10EqQuery, Query.AddEq, Query.From, New, F, And, createGroup,
      validateBase, registerAliases, registerAliasesAux, getBaseAlias, buildProjections,
      collectProjCols, hcol, validateCol, buildJoins, buildFilters, buildFiltersWhere,
      buildFiltersKeyset, buildFilterGroup, buildGroupList, collectFilters,
      allowedOperators, strToUpper, joinParts, buildOrderBy, buildLimitOffset, flatten,
      Frag.render, String.intercalate, PostgresDialect]
    have h1 : (toString 1 : String) = "1" := rfl
    apply String.ext
    simp [String.join, h1]

/-- Witness for C10 at the concrete no-dot reference id. -/
theorem c10_no_dot_leading_dot_witness :
    Build (c10SelQuery "id") = ("SELECT .id FROM users u", [], none) ∧
    Build (c10EqQuery "id" (Val.vInt 7)) =
      ("SELECT u.* FROM users u WHERE .id = $1", [Val.vInt 7], none) := by
  have h := c10_no_dot_leading_dot "id" (Val.vInt 7)
  exact ⟨(h.1 (by decide)).trans (by rfl), (h.2 (by decide)).trans (by rfl)⟩

/-- True when the alias of the reference resolves in the alias map and the
column is present in the schema entry of the resolved table. -/
def colInSchema (s : Schema) (am : AliasMap) (ref : ColumnRef) : Bool :=
  match am.lookup ref.TableAlias with
  | some tableName => schemaHasCol s tableName ref.ColumnName
  | none => false

mutual

/-- Every filter column in the tree, nested groups included, resolves in
the schema. -/
def groupColsValid (s : Schema) (am : AliasMap) : FilterGroup → Bool
  | .mk _ fs gs =>
    fs.all (fun f => colInSchema s am f.Column) && groupsColsValid s am gs

/-- List version of groupColsValid. -/
def groupsColsValid (s : Schema) (am : AliasMap) : List FilterGroup → Bool
  | [] => true
  | g :: gs => groupColsValid s am g && groupsColsValid s am gs

end

/-- validateCol succeeds with a schema exactly when the reference resolves
in it. -/
theorem validateCol_ok_iff (ref : ColumnRef) (am : AliasMap) (s : Schema) :
    validateCol ref am (some s) = .ok () ↔ colInSchema s am ref = true := by
  simp only [validateCol, colInSchema]
  cases hl : am.lookup ref.TableAlias with
  | none => simp
  | some t =>
    by_cases hs : schemaHasCol s t ref.ColumnName
    · simp [hs]
    · simp [hs]

/-- Projections validated by collectProjCols all resolve in the schema. -/
theorem collectProjCols_valid (s : Schema) (am : AliasMap) :
    ∀ (ps : List ColumnRef) (cols : List String),
      collectProjCols am (some s) ps = .ok cols →
      ∀ p ∈ ps, colInSchema s am p = true := by
  intro ps
  induction ps with
  | nil => intro cols h p hp; cases hp
  | cons p0 ps ih =>
    intro cols h p hp
    simp only [collectProjCols] at h
    cases hv : validateCol p0 am (some s) with
    | error e => rw [hv] at h; cases h
    | ok u =>
      rw [hv] at h
      cases hr : collectProjCols am (some s) ps with
      | error e => rw [hr] at h; cases h
      | ok rest =>
        rw [hr] at h
        cases hp with
        | head => exact (validateCol_ok_iff p0 am s).mp hv
        | tail _ hmem => exact ih rest hr p hmem

/-- Filters validated by collectFilters all resolve in the schema. -/
theorem collectFilters_valid (s : Schema) (am : AliasMap) :
    ∀ (fs : List Filter) (args : List Val) (parts : List (List Frag)) (args' : List Val),
      collectFilters am (some s) args fs = .ok (parts, args') →
      ∀ f ∈ fs, colInSchema s am f.Column = true := by
  intro fs
  induction fs with
  | nil => intro args parts args' h f hf; cases hf
  | cons f0 fs ih =>
    intro args parts args' h f hf
    simp only [collectFilters] at h
    cases hv : validateCol f0.Column am (some s) with
    | error e => rw [hv] at h; cases h
    | ok u =>
      rw [hv] at h
      by_cases hop : ¬ (allowedOperators.contains (strToUpper f0.Op) = true)
      · rw [if_pos hop] at h; cases h
      · rw [if_neg hop] at h
        cases hr : collectFilters am (some s) (args ++ [f0.Value]) fs with
        | error e => rw [hr] at h; cases h
        | ok pr =>
          obtain ⟨parts2, args2⟩ := pr
          rw [hr] at h
          cases hf with
          | head => exact (validateCol_ok_iff f0.Column am s).mp hv
          | tail _ hmem => exact ih (args ++ [f0.Value]) parts2 args2 hr f hmem

/-- Strong induction on tree size: a successfully built filter group has
all its columns, nested groups included, resolving in the schema. -/
theorem groupColsValid_rec (s : Schema) (n : Nat) :
    (∀ (oper : String) (fs : List Filter) (gs : List FilterGroup) (args : List Val)
        (am : AliasMap) (depth : Nat) (out : List Frag) (args' : List Val),
        sizeOf (FilterGroup.mk oper fs gs) ≤ n →
        buildFilterGroup (.mk oper fs gs) args am depth (some s) = .ok (out, args') →
        groupColsValid s am (.mk oper fs gs) = true) ∧
    (∀ (gs : List FilterGroup) (args : List Val) (am : AliasMap) (depth : Nat)
        (subs : List (List Frag)) (args' : List Val), sizeOf gs ≤ n →
        buildGroupList gs args am depth (some s) = .ok (subs, args') →
        groupsColsValid s am gs = true) := by
  induction n with
  | zero =>
    constructor
    · intro oper fs gs args am depth out args' hsz _
      exfalso
      simp only [FilterGroup.mk.sizeOf_spec] at hsz
      omega
    · intro gs args am depth subs args' hsz _
      exfalso
      cases gs with
      | nil => simp only [List.nil.sizeOf_spec] at hsz; omega
      | cons g rest => simp only [List.cons.sizeOf_spec] at hsz; omega
  | succ n ih =>
    constructor
    · intro oper fs gs args am depth out args' hsz h
      have hszg : sizeOf gs ≤ n := by
        simp only [FilterGroup.mk.sizeOf_spec] at hsz
        omega
      simp only [buildFilterGroup] at h
      by_cases hd : depth > maxFilterDepth
      · rw [if_pos hd] at h; cases h
      · rw [if_neg hd] at h
        by_cases hcond : strToUpper oper ≠ "AND" ∧ strToUpper oper ≠ "OR"
        · rw [if_pos hcond] at h; cases h
        · rw [if_neg hcond] at h
          cases hcf : collectFilters am (some s) args fs with
          | error e => rw [hcf] at h; cases h
          | ok pr1 =>
            obtain ⟨parts, args1⟩ := pr1
            rw [hcf] at h
            dsimp only at h
            cases hgl : buildGroupList gs args1 am depth (some s) with
            | error e => rw [hgl] at h; cases h
            | ok pr2 =>
              obtain ⟨subParts, args2⟩ := pr2
              simp only [groupColsValid, Bool.and_eq_true, List.all_eq_true]
              exact ⟨fun f hf => collectFilters_valid s am fs args parts args1 hcf f hf,
                ih.2 gs args1 am depth subParts args2 hszg hgl⟩
    · intro gs args am depth subs args' hsz h
      cases gs with
      | nil => rfl
      | cons g rest =>
        obtain ⟨o2, fl2, gl2⟩ := g
        have hszg : sizeOf (FilterGroup.mk o2 fl2 gl2) ≤ n := by
          simp only [List.cons.sizeOf_spec] at hsz
          omega
        have hszr : sizeOf rest ≤ n := by
          simp only [List.cons.sizeOf_spec] at hsz
          omega
        simp only [buildGroupList] at h
        cases hg : buildFilterGroup (.mk o2 fl2 gl2) args am (depth + 1) (some s) with
        | error e => rw [hg] at h; cases h
        | ok pr1 =>
          obtain ⟨sub, args1⟩ := pr1
          rw [hg] at h
          dsimp only at h
          cases hrest : buildGroupList rest args1 am depth (some s) with
          | error e => rw [hrest] at h; cases h
          | ok pr2 =>
            obtain ⟨subs2, args2⟩ := pr2
            simp only [groupsColsValid, Bool.and_eq_true]
            exact ⟨ih.1 o2 fl2 gl2 args am (depth + 1) sub args1 hszg hg,
              ih.2 rest args1 am depth subs2 args2 hszr hrest⟩

/-- A successfully validated join has its table in the schema and both
condition columns resolving. -/
theorem validateJoin_ok (j : Join) (am : AliasMap) (s : Schema)
    (h : validateJoin j am (some s) = .ok ()) :
    (s.lookup j.Table).isSome = true ∧ colInSchema s am j.Condition.Left = true ∧
      colInSchema s am j.Condition.Right = true := by
  simp only [validateJoin] at h
  by_cases ht : ¬ (allowedJoinTypes.contains (strToUpper j.Typ) = true)
  · rw [if_pos ht] at h; cases h
  · rw [if_neg ht] at h
    by_cases htab : (s.lookup j.Table).isNone
    · rw [if_pos htab] at h; cases h
    · rw [if_neg htab] at h
      cases hl : validateCol j.Condition.Left am (some s) with
      | error e => rw [hl] at h; cases h
      | ok u =>
        rw [hl] at h
        cases hr : validateCol j.Condition.Right am (some s) with
        | error e => rw [hr] at h; cases h
        | ok u2 =>
          refine ⟨?_, (validateCol_ok_iff _ am s).mp hl, (validateCol_ok_iff _ am s).mp hr⟩
          cases hls : (s.lookup j.Table) with
          | none => rw [hls] at htab; simp at htab
          | some t => simp

/-- Joins rendered by buildJoins are all schema-valid. -/
theorem buildJoins_valid (s : Schema) (am : AliasMap) :
    ∀ (js : List Join) (out : List Frag), buildJoins am (some s) js = .ok out →
      ∀ j ∈ js, (s.lookup j.Table).isSome = true ∧
        colInSchema s am j.Condition.Left = true ∧
        colInSchema s am j.Condition.Right = true := by
  intro js
  induction js with
  | nil => intro out h j hj; cases hj
  | cons j0 js ih =>
    intro out h j hj
    simp only [buildJoins] at h
    cases hv : validateJoin j0 am (some s) with
    | error e => rw [hv] at h; cases h
    | ok u =>
      rw [hv] at h
      cases hr : buildJoins am (some s) js with
      | error e => rw [hr] at h; cases h
      | ok rest =>
        cases hj with
        | head => exact validateJoin_ok j0 am s hv
        | tail _ hmem => exact ih rest hr j hmem

/-- Sort columns rendered by collectSortParts all resolve in the schema. -/
theorem collectSortParts_valid (s : Schema) (am : AliasMap) :
    ∀ (ss : List SortCol) (parts : List String),
      collectSortParts am (some s) ss = .ok parts →
      ∀ st ∈ ss, colInSchema s am st.Column = true := by
  intro ss
  induction ss with
  | nil => intro parts h st hst; cases hst
  | cons s0 ss ih =>
    intro parts h st hst
    simp only [collectSortParts] at h
    cases hv : validateCol s0.Column am (some s) with
    | error e => rw [hv] at h; cases h
    | ok u =>
      rw [hv] at h
      by_cases hdir : ¬ (allowedSortDir.contains (strToUpper s0.Dir) = true)
      · rw [if_pos hdir] at h; cases h
      · rw [if_neg hdir] at h
        cases hr : collectSortParts am (some s) ss with
        | error e => rw [hr] at h; cases h
        | ok rest =>
          cases hst with
          | head => exact (validateCol_ok_iff s0.Column am s).mp hv
          | tail _ hmem => exact ih rest hr st hmem

/-- Projections of a successful SELECT phase all resolve in the schema. -/
theorem buildProjections_valid (q : Query) (am : AliasMap) (s : Schema) (ba : String)
    (out : List Frag) (h : buildProjections q am (some s) ba = .ok out) :
    ∀ p ∈ q.projections, colInSchema s am p = true := by
  simp only [buildProjections] at h
  by_cases hp : q.projections = []
  · intro p hmem; rw [hp] at hmem; cases hmem
  · rw [if_neg hp] at h
    cases hc : collectProjCols am (some s) q.projections with
    | error e => rw [hc] at h; cases h
    | ok cols => exact collectProjCols_valid s am q.projections cols hc

/-- Sort columns of a successful ORDER BY phase all resolve in the schema. -/
theorem buildOrderBy_valid (q : Query) (am : AliasMap) (s : Schema) (out : List Frag)
    (h : buildOrderBy q am (some s) = .ok out) :
    ∀ st ∈ q.sorts, colInSchema s am st.Column = true := by
  simp only [buildOrderBy] at h
  by_cases hs : q.sorts = []
  · intro st hmem; rw [hs] at hmem; cases hmem
  · rw [if_neg hs] at h
    cases hc : collectSortParts am (some s) q.sorts with
    | error e => rw [hc] at h; cases h
    | ok parts => exact collectSortParts_valid s am q.sorts parts hc

/-- A successful WHERE phase validates the whole root filter tree. -/
theorem buildFilters_valid (q : Query) (args : List Val) (am : AliasMap) (s : Schema)
    (out : List Frag) (args' : List Val)
    (h : buildFilters q args am (some s) = .ok (out, args')) :
    ∀ g, q.whereG = some g → groupColsValid s am g = true := by
  intro g hg
  simp only [buildFilters, buildFiltersWhere, hg] at h
  cases hbg : buildFilterGroup g args am 0 (some s) with
  | error e => rw [hbg] at h; cases h
  | ok pr =>
    obtain ⟨wc, args1⟩ := pr
    obtain ⟨o, f, gl⟩ := g
    exact (groupColsValid_rec s (sizeOf (FilterGroup.mk o f gl))).1 o f gl args am 0 wc
      args1 (Nat.le_refl _) hbg

/-- Inversion of a successful render: every phase it runs succeeded. -/
theorem BuildE_ok_phases (q : Query) (frags : List Frag) (args : List Val)
    (h : BuildE q = .ok (frags, args)) :
    q.errors = [] ∧ validateBase q = .ok () ∧
    ∃ am, registerAliases q = .ok am ∧
      (∃ joinF, buildJoins am q.allowedSchema q.joins = .ok joinF) ∧
      (∃ whereF args1, buildFilters q [] am q.allowedSchema = .ok (whereF, args1)) ∧
      (q.isCount = false →
        (∃ selF, buildProjections q am q.allowedSchema (getBaseAlias q) = .ok selF) ∧
        (∃ orderF, buildOrderBy q am q.allowedSchema = .ok orderF)) := by
  simp only [BuildE] at h
  cases he : q.errors with
  | cons e es => rw [he] at h; cases h
  | nil =>
    rw [he] at h
    cases hb : validateBase q with
    | error e => rw [hb] at h; cases h
    | ok u =>
      cases u
      rw [hb] at h
      dsimp only at h
      cases hra : registerAliases q with
      | error e => rw [hra] at h; cases h
      | ok am =>
        rw [hra] at h
        dsimp only at h
        refine ⟨rfl, rfl, am, rfl, ?_⟩
        cases hic : q.isCount with
        | true =>
          simp only [hic, eq_self_iff_true, if_true] at h
          cases hj : buildJoins am q.allowedSchema q.joins with
          | error e => rw [hj] at h; cases h
          | ok joinF =>
            rw [hj] at h
            dsimp only at h
            cases hf : buildFilters q [] am q.allowedSchema with
            | error e => rw [hf] at h; cases h
            | ok pr =>
              obtain ⟨whereF, args1⟩ := pr
              refine ⟨⟨joinF, rfl⟩, ⟨whereF, args1, rfl⟩, ?_⟩
              intro hfalse
              cases hfalse
        | false =>
          simp only [hic, Bool.false_eq_true, if_false] at h
          cases hp : buildProjections q am q.allowedSchema (getBaseAlias q) with
          | error e => rw [hp] at h; cases h
          | ok selF =>
            rw [hp] at h
            dsimp only at h
            cases hj : buildJoins am q.allowedSchema q.joins with
            | error e => rw [hj] at h; cases h
            | ok joinF =>
              rw [hj] at h
              dsimp only at h
              cases hf : buildFilters q [] am q.allowedSchema with
              | error e => rw [hf] at h; cases h
              | ok pr =>
                obtain ⟨whereF, args1⟩ := pr
                rw [hf] at h
                dsimp only at h
                cases ho : buildOrderBy q am q.allowedSchema with
                | error e => rw [ho] at h; cases h
                | ok orderF =>
                  exact ⟨⟨joinF, rfl⟩, ⟨whereF, args1, rfl⟩,
                    fun _ => ⟨⟨selF, rfl⟩, ⟨orderF, rfl⟩⟩⟩

/-- Schema and queries used for the C4 counterexample and witness. -/
def c4Schema : Schema := [("users", ["id", "name"])]

/-- Count-mode query projecting a column absent from the schema. -/
def c4CountQuery : Query :=
  ((((New PostgresDialect).From "users" "u").WithSchema c4Schema).Select
    ["u.bogus"]).Count

/-- Schema-checked non-count query touching projection, filter and sort. -/
def c4OkQuery : Query :=
  (((((New PostgresDialect).From "users" "u").WithSchema c4Schema).Select
    ["u.id"]).AddEq "u.name" (Val.vStr "x")).OrderBy "u.id" "ASC"

/-- C4 counterexample: in count mode Build succeeds although the
configured projection references a column that is not in the schema, so
the claim fails as stated for count-mode queries. -/
theorem c4_schema_validation_counterexample :
    Build c4CountQuery = ("SELECT COUNT(*) FROM users u", [], none) ∧
    c4CountQuery.allowedSchema = some c4Schema ∧
    registerAliases c4CountQuery = .ok [("u", "users")] ∧
    Col "u.bogus" ∈ c4CountQuery.projections ∧
    colInSchema c4Schema [("u", "users")] (Col "u.bogus") = false :=
  ⟨by rfl, by rfl, by rfl, by decide, by rfl⟩

/-- C4 amended: for every non-count query with a schema set, if Build
returns no error then the base table is in the schema and every
referenced table and column across projections, join tables and join
condition columns, filter columns of the whole tree, and sort columns
(the keyset predicate uses the first sort column, included here) resolves
in the schema. -/
theorem c4_schema_validation (q : Query) (s : Schema) (am : AliasMap) (sql : String)
    (args : List Val) (hic : q.isCount = false) (hsch : q.allowedSchema = some s)
    (ham : registerAliases q = .ok am) (hb : Build q = (sql, args, none)) :
    (s.lookup q.baseTable).isSome = true ∧
    (∀ p ∈ q.projections, colInSchema s am p = true) ∧
    (∀ j ∈ q.joins, (s.lookup j.Table).isSome = true ∧
      colInSchema s am j.Condition.Left = true ∧
      colInSchema s am j.Condition.Right = true) ∧
    (∀ g, q.whereG = some g → groupColsValid s am g = true) ∧
    (∀ st ∈ q.sorts, colInSchema s am st.Column = true) := by
  have hbe : ∃ frags, BuildE q = .ok (frags, args) := by
    cases hx : BuildE q with
    | error e => simp [Build, hx] at hb
    | ok pr =>
      obtain ⟨f2, a2⟩ := pr
      simp only [Build, hx] at hb
      cases hb
      exact ⟨f2, rfl⟩
  obtain ⟨frags, hbe⟩ := hbe
  obtain ⟨he, hvb, am2, hra2, ⟨joinF, hjf⟩, ⟨whereF, args1, hf⟩, hrest⟩ :=
    BuildE_ok_phases q frags args hbe
  have ham2 : am = am2 := by
    rw [ham] at hra2
    cases hra2
    rfl
  subst ham2
  obtain ⟨⟨selF, hsel⟩, ⟨orderF, horder⟩⟩ := hrest hic
  rw [hsch] at hjf hf hsel horder
  have hbase : (s.lookup q.baseTable).isSome = true := by
    simp only [validateBase, hsch] at hvb
    by_cases h0 : q.baseTable = ""
    · rw [if_pos h0] at hvb; cases hvb
    · rw [if_neg h0] at hvb
      by_cases h1 : (s.lookup q.baseTable).isSome
      · exact h1
      · rw [if_neg h1] at hvb; cases hvb
  exact ⟨hbase,
    buildProjections_valid q am s (getBaseAlias q) selF hsel,
    buildJoins_valid s am q.joins joinF hjf,
    buildFilters_valid q [] am s whereF args1 hf,
    buildOrderBy_valid q am s orderF horder⟩

/-- Witness for C4: the schema-checked non-count example succeeds and all
its references resolve. -/
theorem c4_schema_validation_witness :
    (c4Schema.lookup c4OkQuery.baseTable).isSome = true ∧
    (∀ p ∈ c4OkQuery.projections, colInSchema c4Schema [("u", "users")] p = true) ∧
    (∀ j ∈ c4OkQuery.joins, (c4Schema.lookup j.Table).isSome = true ∧
      colInSchema c4Schema [("u", "users")] j.Condition.Left = true ∧
      colInSchema c4Schema [("u", "users")] j.Condition.Right = true) ∧
    (∀ g, c4OkQuery.whereG = some g →
      groupColsValid c4Schema [("u", "users")] g = true) ∧
    (∀ st ∈ c4OkQuery.sorts, colInSchema c4Schema [("u", "users")] st.Column = true) :=
  c4_schema_validation c4OkQuery c4Schema [("u", "users")]
    "SELECT u.id FROM users u WHERE u.name = $1 ORDER BY u.id ASC" [Val.vStr "x"]
    (by rfl) (by rfl) (by rfl) (by rfl)

end QueryBuilder
